import Mathlib

/-!
Verification of the fund-flow tracing core of the repository against its
natural-language specification.

The Python source is shallowly embedded:
* Python dicts become insertion-ordered association lists (`lookupD`,
  `dictInsert`); Python sets become insertion-ordered duplicate-free lists
  (`insertSet`).  Python set iteration order is unspecified; the model fixes
  insertion order, which agrees with the source on membership and size.
* Python floats are modelled as exact rationals (`ℚ`).  All concrete values
  used in theorems below are exactly representable, so the comparisons agree
  with the source's float comparisons at those inputs.
* Network I/O (`requests.get`, `urllib`) is modelled as an oracle function
  passed in explicitly; a raised-and-caught exception is `Option.none`.
* The unbounded `while queue:` loops are run on explicit fuel
  (`bfsLoop`, `v2Loop`); a run is *complete* when the final queue is empty.
  History variables (`enqueueLog`, `edgeLog`, `procLog`) record every queue
  append / traversal edge so that traversal-level properties can be stated;
  they do not influence control flow.
-/

set_option maxHeartbeats 1000000

/-! ## Association-list and ordered-set helpers (Python dict / set) -/

/-- Python `d.get(k)` on a dict represented as an insertion-ordered
association list. -/
def lookupD {α : Type} (l : List (String × α)) (k : String) : Option α :=
  (l.find? (fun p => decide (p.1 = k))).map (fun p => p.2)

/-- Python `d[k] = v`: overwrite in place if present (keeping position),
otherwise append. -/
def dictInsert {α : Type} (l : List (String × α)) (k : String) (v : α) :
    List (String × α) :=
  match l with
  | [] => [(k, v)]
  | (k2, v2) :: rest =>
      if k2 = k then (k2, v) :: rest else (k2, v2) :: dictInsert rest k v

/-- Python `s.add(a)` on a set represented as an insertion-ordered
duplicate-free list. -/
def insertSet (s : List String) (a : String) : List String :=
  if a ∈ s then s else s ++ [a]

/-- Python `s.lower()`.  (`String.toLower` itself is defined through
`String.mapAux`, which the kernel cannot reduce; this structurally
recursive form computes the same string for the ASCII addresses handled
here.) -/
def pyLower (s : String) : String := ⟨s.data.map Char.toLower⟩

theorem lookupD_nil {α : Type} (k : String) : lookupD ([] : List (String × α)) k = none :=
  rfl

theorem lookupD_cons {α : Type} (k a : String) (v : α) (l : List (String × α)) :
    lookupD ((k, v) :: l) a = if k = a then some v else lookupD l a := by
  by_cases h : k = a <;> simp [lookupD, List.find?, h]

theorem lookupD_dictInsert_self {α : Type} (l : List (String × α)) (k : String) (v : α) :
    lookupD (dictInsert l k v) k = some v := by
  induction l with
  | nil => simp [dictInsert, lookupD_cons]
  | cons p rest ih =>
      obtain ⟨k2, v2⟩ := p
      by_cases h : k2 = k
      · simp [dictInsert, h, lookupD_cons]
      · simp [dictInsert, h, lookupD_cons, ih]

theorem lookupD_dictInsert_ne {α : Type} (l : List (String × α)) (k a : String) (v : α)
    (h : a ≠ k) : lookupD (dictInsert l k v) a = lookupD l a := by
  induction l with
  | nil => simp [dictInsert, lookupD_cons, lookupD_nil, Ne.symm h]
  | cons p rest ih =>
      obtain ⟨k2, v2⟩ := p
      by_cases h2 : k2 = k
      · subst h2
        simp [dictInsert, lookupD_cons, Ne.symm h]
      · by_cases h3 : k2 = a
        · simp [dictInsert, h2, lookupD_cons, h3, h]
        · simp [dictInsert, h2, lookupD_cons, h3, ih]

theorem keys_dictInsert {α : Type} (l : List (String × α)) (k : String) (v : α) :
    (dictInsert l k v).map Prod.fst =
      if k ∈ l.map Prod.fst then l.map Prod.fst else l.map Prod.fst ++ [k] := by
  induction l with
  | nil => simp [dictInsert]
  | cons p rest ih =>
      obtain ⟨k2, v2⟩ := p
      by_cases h : k2 = k
      · simp [dictInsert, h]
      · by_cases h2 : k ∈ rest.map Prod.fst
        · simp [dictInsert, h, ih, h2, Ne.symm h]
        · simp [dictInsert, h, ih, h2, Ne.symm h]

theorem mem_insertSet (s : List String) (a b : String) :
    b ∈ insertSet s a ↔ b ∈ s ∨ b = a := by
  unfold insertSet
  by_cases h : a ∈ s
  · simp only [if_pos h]
    constructor
    · exact fun hb => Or.inl hb
    · rintro (hb | rfl) <;> [exact hb; exact h]
  · simp [if_neg h]

theorem insertSet_nodup (s : List String) (a : String) (h : s.Nodup) :
    (insertSet s a).Nodup := by
  unfold insertSet
  by_cases hm : a ∈ s
  · simpa [hm] using h
  · simp only [if_neg hm]
    simpa [List.nodup_append] using ⟨h, hm⟩

theorem nodup_snoc {α : Type} (l : List α) (a : α) (h : l.Nodup) (hm : a ∉ l) :
    (l ++ [a]).Nodup := by
  simpa [List.nodup_append] using ⟨h, hm⟩

/-! ## `src/network_expander.py` — data model

A transfer record, with exactly the fields the embedded functions read
(`from`, `to`, `value`, `tokenSymbol`, `tokenDecimal`, `timeStamp`). -/

structure Tx where
  fromAddr : String
  toAddr : String
  value : Nat
  tokenSymbol : String
  tokenDecimal : Nat
  timeStamp : Nat
deriving DecidableEq

namespace NetworkExpander

/-- `KNOWN_EXCHANGE_HOT_WALLETS` from `src/network_expander.py`
(an insertion-ordered dict of address → label). -/
def KNOWN_EXCHANGE_HOT_WALLETS : List (String × String) :=
  [("0x0d0707963952f2fba59dd06f2b425ace40b492fe", "Gate.io Deposit"),
   ("0x1c4b70a3968436b9a0a9cf5205c787eb81bb558c", "Gate.io Hot Wallet"),
   ("0x39f6a6c85d39d5abad8a398310c52e7c374f2ba3", "WhiteBIT Hot Wallet"),
   ("0x5a52e96bacdabb82fd05763e25335261b270efcb", "WhiteBIT"),
   ("0x17fbbd5bf41693e6bd534a1bc7ca412401d7ce6e", "Bybit Deposit"),
   ("0xf89d7b9c864f589bbf53a82105107622b35eaa40", "Bybit Hot Wallet"),
   ("0x28c6c06298d514db089934071355e5743bf21d60", "Binance 14"),
   ("0x21a31ee1afc51d94c2efccaa2092ad1028285549", "Binance"),
   ("0xdfd5293d8e347dfe59e90efd55b2956a1343963d", "Binance 8"),
   ("0x83c41363cbee0081dab75cb841fa24f3db46627e", "KuCoin Deposit"),
   ("0x1ab4973a48dc892cd9971ece8e01dcc7688f8f23", "Bitget Deposit"),
   ("0x46340b20830761efd32832a74d7169b29feb9758", "Huobi"),
   ("0x5041ed759dd4afc3a72b8192c143f72f4724081a", "OKX"),
   ("0x6262998ced04146fa42253a5c0af90ca02dfd2a3", "Crypto.com")]

/-- The inflow side of the partition in `is_exchange_deposit_pattern`:
the source tests `from == address` first and only `elif to == address`,
so a self-transfer counts as an outflow only. `address` is assumed
already lower-cased (the classifier lower-cases before partitioning). -/
def inflowsOf (address : String) (txs : List Tx) : List Tx :=
  txs.filter (fun tx =>
    decide ((pyLower tx.fromAddr) ≠ address) && decide ((pyLower tx.toAddr) = address))

/-- The outflow side of the partition in `is_exchange_deposit_pattern`. -/
def outflowsOf (address : String) (txs : List Tx) : List Tx :=
  txs.filter (fun tx => decide ((pyLower tx.fromAddr) = address))

/-- One step of building the `destinations` count dict: increment in place,
or append with count 1. -/
def bumpDest (m : List (String × Nat)) (d : String) : List (String × Nat) :=
  match m with
  | [] => [(d, 1)]
  | (k, n) :: rest =>
      if k = d then (k, n + 1) :: rest else (k, n) :: bumpDest rest d

/-- The `destinations` dict of `is_exchange_deposit_pattern`: occurrence
counts of the lower-cased `to` addresses of the outflows, keys in
first-seen order. -/
def destinations (outs : List Tx) : List (String × Nat) :=
  outs.foldl (fun m tx => bumpDest m (pyLower tx.toAddr)) []

/-- The scan underlying Python's `max(destinations, key=destinations.get)`:
keep the current best and replace it only on a strictly greater count, so
ties are won by the earliest-seen key. -/
def maxDestAux (k : String) (n : Nat) : List (String × Nat) → String × Nat
  | [] => (k, n)
  | (k2, n2) :: rest =>
      if n2 > n then maxDestAux k2 n2 rest else maxDestAux k n rest

/-- `primary_dest = max(destinations, key=destinations.get)` — `none` on an
empty dict (the source guards this case with `if not destinations`). -/
def maxDest : List (String × Nat) → Option String
  | [] => none
  | (k, n) :: rest => some (maxDestAux k n rest).1

/-- The spec's `Classification` variant. The source function returns a bare
`(bool, Optional[str])`; `classify` tags which branch of
`is_exchange_deposit_pattern` produced the result, and
`is_exchange_deposit_pattern` below projects the tag away. -/
inductive Classification where
  | Unknown : Classification
  | KnownEndpoint (label : String) : Classification
  | DepositFunnel (swept_to : String) (label : String) : Classification
deriving DecidableEq

/-- `is_exchange_deposit_pattern` of `src/network_expander.py`, with the
produced branch made explicit.  The branch order is the source's: empty
transaction list first, then the static-table short-circuit, then the
deposit-funnel heuristic. -/
def classify (table : List (String × String)) (address : String) (txs : List Tx) :
    Classification :=
  let address := pyLower address
  if txs = [] then .Unknown
  else
    match lookupD table address with
    | some name => .KnownEndpoint name
    | none =>
        let inflows := inflowsOf address txs
        let outflows := outflowsOf address txs
        if inflows.length < 1 ∨ inflows.length > 20 then .Unknown
        else if outflows = [] then .Unknown
        else
          match maxDest (destinations outflows) with
          | none => .Unknown
          | some primary_dest =>
              match lookupD table primary_dest with
              | some name => .DepositFunnel primary_dest name
              | none => .Unknown

/-- The spec's notion of *modal destination with earliest-seen tie-break*:
`d` occurs in the count dict with a count strictly above every
earlier-seen destination and at least every later-seen one — i.e. `d` is
the first key attaining the maximum count. -/
def IsModalDest (l : List (String × Nat)) (d : String) : Prop :=
  ∃ pre c suf, l = pre ++ (d, c) :: suf ∧ (∀ p ∈ pre, p.2 < c) ∧ (∀ p ∈ suf, p.2 ≤ c)

theorem maxDestAux_spec (rest : List (String × Nat)) :
    ∀ (k : String) (n : Nat),
    (maxDestAux k n rest = (k, n) ∧ ∀ p ∈ rest, p.2 ≤ n) ∨
    (∃ pre m suf, rest = pre ++ ((maxDestAux k n rest).1, m) :: suf ∧
      (maxDestAux k n rest).2 = m ∧ n < m ∧ (∀ p ∈ pre, p.2 < m) ∧
      (∀ p ∈ suf, p.2 ≤ m)) := by
  induction rest with
  | nil => exact fun k n => Or.inl ⟨rfl, by simp⟩
  | cons p rest ih =>
      intro k n
      obtain ⟨k2, n2⟩ := p
      by_cases hgt : n2 > n
      · have haux : maxDestAux k n ((k2, n2) :: rest) = maxDestAux k2 n2 rest := by
          simp [maxDestAux, hgt]
        rw [haux]
        rcases ih k2 n2 with ⟨heq, hle⟩ | ⟨pre, m, suf, hsplit, hm, hlt, hpre, hsuf⟩
        · refine Or.inr ⟨[], n2, rest, ?_, ?_, hgt, by simp, hle⟩
          · simp [heq]
          · simp [heq]
        · refine Or.inr ⟨(k2, n2) :: pre, m, suf, ?_, hm, lt_trans hgt hlt, ?_, hsuf⟩
          · rw [List.cons_append, ← hsplit]
          · intro q hq
            rcases List.mem_cons.mp hq with rfl | hq
            · exact hlt
            · exact hpre q hq
      · have haux : maxDestAux k n ((k2, n2) :: rest) = maxDestAux k n rest := by
          simp [maxDestAux, hgt]
        rw [haux]
        rcases ih k n with ⟨heq, hle⟩ | ⟨pre, m, suf, hsplit, hm, hlt, hpre, hsuf⟩
        · refine Or.inl ⟨heq, ?_⟩
          intro q hq
          rcases List.mem_cons.mp hq with rfl | hq
          · exact not_lt.mp hgt
          · exact hle q hq
        · refine Or.inr ⟨(k2, n2) :: pre, m, suf, ?_, hm, hlt, ?_, hsuf⟩
          · rw [List.cons_append, ← hsplit]
          · intro q hq
            rcases List.mem_cons.mp hq with rfl | hq
            · exact lt_of_le_of_lt (not_lt.mp hgt) hlt
            · exact hpre q hq

/-- The result of `maxDest` is the modal destination in the spec's sense
(plurality count, earliest-seen tie-break). -/
theorem maxDest_isModal (l : List (String × Nat)) (d : String)
    (h : maxDest l = some d) : IsModalDest l d := by
  match l, h with
  | (k, n) :: rest, h =>
    have hd : (maxDestAux k n rest).1 = d := by
      simpa [maxDest] using h
    rcases maxDestAux_spec rest k n with ⟨heq, hle⟩ | ⟨pre, m, suf, hsplit, _, hlt, hpre, hsuf⟩
    · have hk : k = d := by rw [heq] at hd; exact hd
      exact ⟨[], n, rest, by simp [hk], by simp, hle⟩
    · rw [hd] at hsplit
      exact ⟨(k, n) :: pre, m, suf, by rw [List.cons_append, ← hsplit],
        fun q hq => by
          rcases List.mem_cons.mp hq with rfl | hq
          · exact hlt
          · exact hpre q hq,
        hsuf⟩

/-- The modal destination is unique: the split positions must coincide. -/
theorem IsModalDest_unique (l : List (String × Nat)) (d1 d2 : String)
    (h1 : IsModalDest l d1) (h2 : IsModalDest l d2) : d1 = d2 := by
  obtain ⟨pre1, c1, suf1, hsplit1, hpre1, hsuf1⟩ := h1
  obtain ⟨pre2, c2, suf2, hsplit2, hpre2, hsuf2⟩ := h2
  have heq : pre1 ++ (d1, c1) :: suf1 = pre2 ++ (d2, c2) :: suf2 := by
    rw [← hsplit1, ← hsplit2]
  rcases List.append_eq_append_iff.mp heq with ⟨a, ha2, ha1⟩ | ⟨a, ha1, ha2⟩
  · match a, ha1, ha2 with
    | [], ha1, _ =>
        have : (d1, c1) = (d2, c2) := by simpa using congrArg (·.headI) ha1
        exact congrArg Prod.fst this
    | (x :: a'), ha1, ha2 =>
        have hx : x = (d1, c1) := by
          have := congrArg (·.headI) ha1
          simpa using this.symm
        subst hx
        have hm1 : (d1, c1) ∈ pre2 := by rw [ha2]; simp
        have hc1 : c1 < c2 := hpre2 _ hm1
        have hsuf1' : suf1 = a' ++ (d2, c2) :: suf2 := by
          simpa using congrArg List.tail ha1
        have hm2 : (d2, c2) ∈ suf1 := by rw [hsuf1']; simp
        have hc2 : c2 ≤ c1 := hsuf1 _ hm2
        exact absurd hc1 (not_lt.mpr hc2)
  · match a, ha1, ha2 with
    | [], ha1, ha2 =>
        have hpp : pre1 = pre2 := by simpa using ha1
        subst hpp
        have : (d1, c1) :: suf1 = (d2, c2) :: suf2 := List.append_cancel_left heq
        exact congrArg Prod.fst (List.head_eq_of_cons_eq this)
    | (x :: a'), ha1, ha2 =>
        have hx : x = (d2, c2) := by
          have := congrArg (·.headI) ha2
          simpa using this.symm
        subst hx
        have hm2 : (d2, c2) ∈ pre1 := by rw [ha1]; simp
        have hc2 : c2 < c1 := hpre1 _ hm2
        have hsuf2' : suf2 = a' ++ (d1, c1) :: suf1 := by
          simpa using congrArg List.tail ha2
        have hm1 : (d1, c1) ∈ suf2 := by rw [hsuf2']; simp
        have hc1 : c1 ≤ c2 := hsuf2 _ hm1
        exact absurd hc2 (not_lt.mpr hc1)

theorem bumpDest_ne_nil (m : List (String × Nat)) (d : String) : bumpDest m d ≠ [] := by
  match m with
  | [] => simp [bumpDest]
  | (k, n) :: rest =>
      unfold bumpDest
      by_cases h : k = d <;> simp [h]

theorem foldl_bump_ne_nil (l : List Tx) :
    ∀ m : List (String × Nat), m ≠ [] →
      l.foldl (fun m tx => bumpDest m (pyLower tx.toAddr)) m ≠ [] := by
  induction l with
  | nil => exact fun m hm => hm
  | cons t rest ih => exact fun m _ => ih (bumpDest m (pyLower t.toAddr)) (bumpDest_ne_nil m _)

theorem destinations_ne_nil (outs : List Tx) (h : outs ≠ []) :
    destinations outs ≠ [] := by
  match outs, h with
  | t :: rest, _ =>
    exact foldl_bump_ne_nil rest (bumpDest [] (pyLower t.toAddr)) (bumpDest_ne_nil [] _)

theorem maxDest_eq_some_iff (l : List (String × Nat)) (d : String) (hne : l ≠ []) :
    maxDest l = some d ↔ IsModalDest l d := by
  constructor
  · exact maxDest_isModal l d
  · intro hmod
    match l, hne with
    | (k, n) :: rest, _ =>
      have hm : maxDest ((k, n) :: rest) = some (maxDestAux k n rest).1 := rfl
      have := maxDest_isModal _ _ hm
      rw [hm, IsModalDest_unique _ _ _ this hmod]

/-- The raw `(is_deposit, exchange_name)` pair the source function returns. -/
def classificationPair : Classification → Bool × Option String
  | .Unknown => (false, none)
  | .KnownEndpoint name => (true, some name)
  | .DepositFunnel _ name => (true, some name)

/-- `is_exchange_deposit_pattern(address, txs) -> (is_deposit, exchange_name)`. -/
def is_exchange_deposit_pattern (table : List (String × String)) (address : String)
    (txs : List Tx) : Bool × Option String :=
  classificationPair (classify table address txs)

theorem classify_nil (table : List (String × String)) (address : String) :
    classify table address [] = .Unknown := by
  simp [classify]

theorem classify_known (table : List (String × String)) (address : String)
    (txs : List Tx) (name : String) (htxs : txs ≠ [])
    (hlook : lookupD table (pyLower address) = some name) :
    classify table address txs = .KnownEndpoint name := by
  unfold classify
  simp only [if_neg htxs, hlook]

/-- Full characterization of the deposit-funnel branch of the
classifier, for addresses outside the static table: the result is
`DepositFunnel d lbl` exactly when the inflow count lies in `[1, 20]`,
at least one outflow exists, `d` is the modal destination of the
outflows (earliest-seen tie-break) and `d` carries label `lbl` in the
table. -/
theorem classify_funnel_iff (table : List (String × String)) (address : String)
    (txs : List Tx) (d lbl : String)
    (hnot : lookupD table (pyLower address) = none) :
    classify table address txs = .DepositFunnel d lbl ↔
      (1 ≤ (inflowsOf (pyLower address) txs).length ∧
       (inflowsOf (pyLower address) txs).length ≤ 20 ∧
       outflowsOf (pyLower address) txs ≠ [] ∧
       IsModalDest (destinations (outflowsOf (pyLower address) txs)) d ∧
       lookupD table d = some lbl) := by
  by_cases htxs : txs = []
  · subst htxs
    rw [classify_nil]
    simp [inflowsOf]
  · unfold classify
    simp only [if_neg htxs, hnot]
    by_cases hin : (inflowsOf (pyLower address) txs).length < 1 ∨
        (inflowsOf (pyLower address) txs).length > 20
    · simp only [if_pos hin]
      constructor
      · intro h; cases h
      · rintro ⟨h1, h2, -⟩
        rcases hin with hin | hin
        · exact absurd h1 (by omega)
        · exact absurd h2 (by omega)
    · simp only [if_neg hin]
      push_neg at hin
      obtain ⟨hge, hle⟩ := hin
      by_cases hout : outflowsOf (pyLower address) txs = []
      · simp only [if_pos hout]
        constructor
        · intro h; cases h
        · rintro ⟨-, -, h3, -⟩
          exact absurd hout h3
      · simp only [if_neg hout]
        have hdne := destinations_ne_nil _ hout
        split
        · rename_i hmd
          exfalso
          match hh : destinations (outflowsOf (pyLower address) txs), hdne with
          | (k, n) :: rest, _ => rw [hh] at hmd; exact Option.noConfusion hmd
        · rename_i r hmd
          split
          · rename_i name hlr
            constructor
            · intro h
              injection h with h1 h2
              subst h1
              subst h2
              exact ⟨hge, hle, hout, maxDest_isModal _ _ hmd, hlr⟩
            · rintro ⟨-, -, -, hmod, hld⟩
              have hrd : r = d :=
                IsModalDest_unique _ _ _ (maxDest_isModal _ _ hmd) hmod
              subst hrd
              rw [hlr] at hld
              injection hld with h2
              subst h2
              rfl
          · rename_i hlr
            constructor
            · intro h
              cases h
            · rintro ⟨-, -, -, hmod, hld⟩
              have hrd : r = d :=
                IsModalDest_unique _ _ _ (maxDest_isModal _ _ hmd) hmod
              subst hrd
              rw [hlr] at hld
              cases hld

/-! ### Ledger client (`etherscan_request`, `get_transactions`)

The upstream HTTP response for `(address, tx_type)` is an oracle
`String → String → Option (List Tx)`; `none` models a request that raised
(and was caught) or returned a non-OK status. -/

/-- `etherscan_request`: a failed or non-OK request yields `[]`, never an
exception. -/
def etherscan_request (upstreamResult : Option (List Tx)) : List Tx :=
  match upstreamResult with
  | some txs => txs
  | none => []

/-- `get_transactions(address, tx_type)`. -/
def get_transactions (upstream : String → String → Option (List Tx))
    (address tx_type : String) : List Tx :=
  let address := pyLower address
  if tx_type = "normal" then etherscan_request (upstream address "normal")
  else if tx_type = "erc20" then etherscan_request (upstream address "erc20")
  else []

/-! ### `analyze_address` -/

/-- Python's `min(..., default=0)` / `max(..., default=0)`. -/
def minD (l : List Nat) : Nat :=
  match l with
  | [] => 0
  | x :: xs => xs.foldl Nat.min x

def maxD (l : List Nat) : Nat :=
  match l with
  | [] => 0
  | x :: xs => xs.foldl Nat.max x

def sumQ (l : List ℚ) : ℚ := l.foldl (· + ·) 0

/-- The `AddressSnapshot` produced by `analyze_address` (dict keys as
fields). -/
structure Analysis where
  address : String
  is_exchange_deposit : Bool
  exchange_name : Option String
  tx_count : Nat
  eth_in : ℚ
  eth_out : ℚ
  usdt_in : ℚ
  usdt_out : ℚ
  connected_in : List String
  connected_out : List String
  first_tx : Nat
  last_tx : Nat
deriving DecidableEq

/-- The loop body building `connected_in` / `connected_out`: for each
transfer, add a non-empty `from`/`to` that differs from the analyzed
address. -/
def addConnected (address : String) (acc : List String × List String) (tx : Tx) :
    List String × List String :=
  let from_addr := (pyLower tx.fromAddr)
  let to_addr := (pyLower tx.toAddr)
  let cin := if from_addr ≠ "" ∧ from_addr ≠ address then insertSet acc.1 from_addr else acc.1
  let cout := if to_addr ≠ "" ∧ to_addr ≠ address then insertSet acc.2 to_addr else acc.2
  (cin, cout)

/-- `analyze_address` of `src/network_expander.py`: fetch normal and ERC-20
transfers, classify on their concatenation, and extract connected
addresses and totals.  Floats are modelled as exact rationals. -/
def analyze_address (table : List (String × String))
    (upstream : String → String → Option (List Tx)) (address : String) : Analysis :=
  let address := pyLower address
  let normal_txs := get_transactions upstream address "normal"
  let erc20_txs := get_transactions upstream address "erc20"
  let all_txs := normal_txs ++ erc20_txs
  let dep := is_exchange_deposit_pattern table address all_txs
  let conn := (normal_txs ++ erc20_txs).foldl (addConnected address) ([], [])
  { address := address
    is_exchange_deposit := dep.1
    exchange_name := dep.2
    tx_count := normal_txs.length + erc20_txs.length
    eth_in := sumQ ((normal_txs.filter (fun tx => decide ((pyLower tx.toAddr) = address))).map
      (fun tx => (tx.value : ℚ) / 10 ^ 18))
    eth_out := sumQ ((normal_txs.filter (fun tx => decide ((pyLower tx.fromAddr) = address))).map
      (fun tx => (tx.value : ℚ) / 10 ^ 18))
    usdt_in := sumQ ((erc20_txs.filter (fun tx =>
        decide ((pyLower tx.toAddr) = address) && decide (tx.tokenSymbol = "USDT"))).map
      (fun tx => (tx.value : ℚ) / 10 ^ tx.tokenDecimal))
    usdt_out := sumQ ((erc20_txs.filter (fun tx =>
        decide ((pyLower tx.fromAddr) = address) && decide (tx.tokenSymbol = "USDT"))).map
      (fun tx => (tx.value : ℚ) / 10 ^ tx.tokenDecimal))
    connected_in := conn.1
    connected_out := conn.2
    first_tx := minD (all_txs.map Tx.timeStamp)
    last_tx := maxD (all_txs.map Tx.timeStamp) }

/-! ### `bfs_expand` -/

/-- One entry of the `graph` dict: `{depth, analysis}`. -/
structure NodeRec where
  depth : Nat
  analysis : Analysis
deriving DecidableEq

/-- One entry of `kyc_touchpoints`.  The source appends dicts of two
shapes (a classified-node record and a skipped-hot-wallet record); absent
keys are `none`. -/
structure Touchpoint where
  address : String
  exchange : Option String
  depth : Nat
  usdt_flow : Option ℚ
  eth_flow : Option ℚ
  via : Option String
  flow_direction : Option String
deriving DecidableEq

/-- The traversal state of `bfs_expand`.  `enqueueLog` and `edgeLog` are
history variables: `enqueueLog` records every `queue.append` (address and
depth), and `edgeLog` records every peer enqueue as
`(parent, parent depth, peer)`.  They receive no reads in the transition
function. -/
structure BfsState where
  visited : List String
  queue : List (String × Nat)
  graph : List (String × NodeRec)
  kyc_touchpoints : List Touchpoint
  enqueueLog : List (String × Nat)
  edgeLog : List (String × Nat × String)
deriving DecidableEq

/-- The inner peer loop body of `bfs_expand`: skip visited peers, record a
touchpoint (but do not enqueue) for known hot wallets, otherwise mark
visited and enqueue at `depth + 1`. -/
def processPeer (table : List (String × String)) (address : String) (depth : Nat)
    (s : BfsState) (next_addr : String) : BfsState :=
  if next_addr ∈ s.visited then s
  else
    match lookupD table next_addr with
    | some name =>
        { s with kyc_touchpoints := s.kyc_touchpoints ++
            [{ address := address, exchange := some name, depth := depth,
               usdt_flow := none, eth_flow := none, via := some next_addr,
               flow_direction := some "direct" }] }
    | none =>
        { s with visited := s.visited ++ [next_addr],
                 queue := s.queue ++ [(next_addr, depth + 1)],
                 enqueueLog := s.enqueueLog ++ [(next_addr, depth + 1)],
                 edgeLog := s.edgeLog ++ [(address, depth, next_addr)] }

/-- The node-recording half of one `bfs_expand` iteration: pop the head
entry, store `graph[address] = {depth, analysis}` and, if the analysis
flagged an exchange-deposit pattern, append a KYC touchpoint. -/
def bfsVisit (table : List (String × String))
    (upstream : String → String → Option (List Tx)) (address : String) (depth : Nat)
    (rest : List (String × Nat)) (s : BfsState) : BfsState :=
  let analysis := analyze_address table upstream address
  let tps :=
    if analysis.is_exchange_deposit then
      s.kyc_touchpoints ++
        [{ address := address, exchange := analysis.exchange_name, depth := depth,
           usdt_flow := some (analysis.usdt_in + analysis.usdt_out),
           eth_flow := some (analysis.eth_in + analysis.eth_out),
           via := none, flow_direction := none }]
    else s.kyc_touchpoints
  { s with queue := rest,
           graph := dictInsert s.graph address ⟨depth, analysis⟩,
           kyc_touchpoints := tps }

/-- `connected_in` / `connected_out` selected by the requested direction. -/
def nextAddrs (direction : String) (analysis : Analysis) : List String :=
  (if direction = "in" ∨ direction = "both" then analysis.connected_in else []) ++
  (if direction = "out" ∨ direction = "both" then analysis.connected_out else [])

/-- One iteration of the `while queue:` loop of `bfs_expand`: pop, analyze,
record the node, record a touchpoint if classified, then (below the max
depth) walk the peers in the requested direction.  (`analyze_address` is
pure, so recomputing it inside `nextAddrs` matches the source's single
call.) -/
def bfsStep (table : List (String × String))
    (upstream : String → String → Option (List Tx)) (max_depth : Nat)
    (direction : String) (s : BfsState) : BfsState :=
  match s.queue with
  | [] => s
  | (address, depth) :: rest =>
      let base := bfsVisit table upstream address depth rest s
      if depth ≥ max_depth then base
      else
        (nextAddrs direction (analyze_address table upstream address)).foldl
          (processPeer table address depth) base

/-- The `while queue:` loop, on explicit fuel.  A run is complete when the
resulting queue is empty. -/
def bfsLoop (table : List (String × String))
    (upstream : String → String → Option (List Tx)) (max_depth : Nat)
    (direction : String) : Nat → BfsState → BfsState
  | 0, s => s
  | fuel + 1, s =>
      match s.queue with
      | [] => s
      | _ :: _ => bfsLoop table upstream max_depth direction fuel
          (bfsStep table upstream max_depth direction s)

/-- The state before seed initialization. -/
def emptyBfsState : BfsState :=
  { visited := [], queue := [], graph := [], kyc_touchpoints := [],
    enqueueLog := [], edgeLog := [] }

/-- One step of seed initialization: lower-case the seed, append it to
the queue at depth 0 (duplicates included) and add it to the visited
set. -/
def seedStep (s : BfsState) (addr : String) : BfsState :=
  let addr := pyLower addr
  { s with queue := s.queue ++ [(addr, 0)],
           visited := insertSet s.visited addr,
           enqueueLog := s.enqueueLog ++ [(addr, 0)] }

/-- Seed initialization of `bfs_expand`. -/
def bfsInit (seeds : List String) : BfsState :=
  seeds.foldl seedStep emptyBfsState

/-- `bfs_expand(seed_addresses, max_depth, direction)` run on `fuel` loop
iterations.  The returned state carries the result dict's `graph`,
`kyc_touchpoints` and visited set (`total_addresses_discovered =
visited.length`). -/
def bfs_expand (table : List (String × String))
    (upstream : String → String → Option (List Tx)) (seeds : List String)
    (max_depth : Nat) (direction : String) (fuel : Nat) : BfsState :=
  bfsLoop table upstream max_depth direction fuel (bfsInit seeds)

/-! ### Traversal invariants of `bfs_expand` -/

theorem lookupD_isSome_of_mem_keys {α : Type} (l : List (String × α)) (a : String)
    (h : a ∈ l.map Prod.fst) : ∃ r, lookupD l a = some r := by
  induction l with
  | nil => simp at h
  | cons p rest ih =>
      obtain ⟨k, v⟩ := p
      rw [lookupD_cons]
      by_cases hk : k = a
      · exact ⟨v, by simp [hk]⟩
      · simp only [List.map_cons, List.mem_cons] at h
        rcases h with h | h
        · exact absurd h.symm hk
        · simpa [hk] using ih h

/-- The state invariant maintained by every `bfs_expand` iteration.
`enqueueLog` is the ground truth: queue entries, the visited set and the
recorded graph depths are all consistent with it. -/
structure Inv (table : List (String × String))
    (upstream : String → String → Option (List Tx)) (s : BfsState) : Prop where
  vis_nodup : s.visited.Nodup
  graph_nodup : (s.graph.map Prod.fst).Nodup
  queue_log : ∀ e ∈ s.queue, e ∈ s.enqueueLog
  log_vis : ∀ e ∈ s.enqueueLog, e.1 ∈ s.visited
  vis_log : ∀ a ∈ s.visited, ∃ d, (a, d) ∈ s.enqueueLog
  log_depth : ∀ a d1 d2, (a, d1) ∈ s.enqueueLog → (a, d2) ∈ s.enqueueLog → d1 = d2
  graph_vis : ∀ a ∈ s.graph.map Prod.fst, a ∈ s.visited
  vis_gq : ∀ a ∈ s.visited, a ∈ s.graph.map Prod.fst ∨ ∃ d, (a, d) ∈ s.queue
  graph_depth : ∀ a r, lookupD s.graph a = some r → (a, r.depth) ∈ s.enqueueLog
  graph_rec : ∀ a r, lookupD s.graph a = some r →
    r.analysis = analyze_address table upstream a
  edge_inv : ∀ u du v, (u, du, v) ∈ s.edgeLog →
    lookupD table v = none ∧ (u, du) ∈ s.enqueueLog ∧ (v, du + 1) ∈ s.enqueueLog

/-- `processPeer` does exactly one of three things: nothing (visited),
a touchpoint append (known hot wallet), or a fresh enqueue. -/
theorem processPeer_cases (table : List (String × String)) (address : String)
    (depth : Nat) (s : BfsState) (x : String) :
    (x ∈ s.visited ∧ processPeer table address depth s x = s) ∨
    (∃ name, x ∉ s.visited ∧ lookupD table x = some name ∧
      processPeer table address depth s x =
        { s with kyc_touchpoints := s.kyc_touchpoints ++
            [{ address := address, exchange := some name, depth := depth,
               usdt_flow := none, eth_flow := none, via := some x,
               flow_direction := some "direct" }] }) ∨
    (x ∉ s.visited ∧ lookupD table x = none ∧
      processPeer table address depth s x =
        { s with visited := s.visited ++ [x],
                 queue := s.queue ++ [(x, depth + 1)],
                 enqueueLog := s.enqueueLog ++ [(x, depth + 1)],
                 edgeLog := s.edgeLog ++ [(address, depth, x)] }) := by
  unfold processPeer
  by_cases hv : x ∈ s.visited
  · exact Or.inl ⟨hv, by simp [hv]⟩
  · cases htab : lookupD table x with
    | some name => exact Or.inr (Or.inl ⟨name, hv, rfl, by simp [hv, htab]⟩)
    | none => exact Or.inr (Or.inr ⟨hv, rfl, by simp [hv, htab]⟩)

theorem processPeer_inv {table : List (String × String)}
    {upstream : String → String → Option (List Tx)} {s : BfsState}
    {address : String} {depth : Nat}
    (hInv : Inv table upstream s) (hctx : (address, depth) ∈ s.enqueueLog)
    (x : String) : Inv table upstream (processPeer table address depth s x) := by
  rcases processPeer_cases table address depth s x with ⟨_, heq⟩ | ⟨name, _, _, heq⟩ |
    ⟨hv, htab, heq⟩
  · rwa [heq]
  · rw [heq]
    exact { hInv with }
  · rw [heq]
    refine ⟨?_, ?_, ?_, ?_, ?_, ?_, ?_, ?_, ?_, ?_, ?_⟩
    · exact nodup_snoc _ _ hInv.vis_nodup hv
    · exact hInv.graph_nodup
    · intro e he
      simp only [List.mem_append, List.mem_singleton] at he ⊢
      rcases he with he | he
      · exact Or.inl (hInv.queue_log e he)
      · exact Or.inr he
    · intro e he
      simp only [List.mem_append, List.mem_singleton] at he ⊢
      rcases he with he | he
      · exact Or.inl (hInv.log_vis e he)
      · exact Or.inr (by simp [he])
    · intro a ha
      simp only [List.mem_append, List.mem_singleton] at ha
      rcases ha with ha | ha
      · obtain ⟨d, hd⟩ := hInv.vis_log a ha
        exact ⟨d, by simp [hd]⟩
      · exact ⟨depth + 1, by simp [ha]⟩
    · intro a d1 d2 h1 h2
      simp only [List.mem_append, List.mem_singleton, Prod.mk.injEq] at h1 h2
      rcases h1 with h1 | ⟨rfl, rfl⟩
      · rcases h2 with h2 | ⟨he, rfl⟩
        · exact hInv.log_depth a d1 d2 h1 h2
        · exact absurd (hInv.log_vis _ h1) (he ▸ hv)
      · rcases h2 with h2 | ⟨_, rfl⟩
        · exact absurd (hInv.log_vis _ h2) hv
        · rfl
    · intro a ha
      simp only [List.mem_append, List.mem_singleton]
      exact Or.inl (hInv.graph_vis a ha)
    · intro a ha
      simp only [List.mem_append, List.mem_singleton] at ha
      rcases ha with ha | ha
      · rcases hInv.vis_gq a ha with hg | ⟨d, hd⟩
        · exact Or.inl hg
        · exact Or.inr ⟨d, by simp [hd]⟩
      · exact Or.inr ⟨depth + 1, by simp [ha]⟩
    · intro a r hr
      simp only [List.mem_append, List.mem_singleton]
      exact Or.inl (hInv.graph_depth a r hr)
    · exact hInv.graph_rec
    · intro u du v huv
      simp only [List.mem_append, List.mem_singleton, Prod.mk.injEq] at huv
      rcases huv with huv | ⟨rfl, rfl, rfl⟩
      · obtain ⟨h1, h2, h3⟩ := hInv.edge_inv u du v huv
        exact ⟨h1, by simp [h2], by simp [h3]⟩
      · exact ⟨htab, by simp [hctx], by simp⟩

theorem processPeer_enqueueLog_mono {table : List (String × String)} {s : BfsState}
    {address : String} {depth : Nat} {x : String} {e : String × Nat}
    (he : e ∈ s.enqueueLog) : e ∈ (processPeer table address depth s x).enqueueLog := by
  rcases processPeer_cases table address depth s x with ⟨_, heq⟩ | ⟨name, _, _, heq⟩ |
    ⟨_, _, heq⟩ <;> rw [heq] <;> simp [he]

theorem foldPeers_inv {table : List (String × String)}
    {upstream : String → String → Option (List Tx)}
    {address : String} {depth : Nat} (next : List String) (s : BfsState)
    (hInv : Inv table upstream s) (hctx : (address, depth) ∈ s.enqueueLog) :
    Inv table upstream (next.foldl (processPeer table address depth) s) := by
  induction next generalizing s with
  | nil => exact hInv
  | cons x rest ih =>
      exact ih _ (processPeer_inv hInv hctx x) (processPeer_enqueueLog_mono hctx)

theorem mem_keys_dictInsert {α : Type} (l : List (String × α)) (k a : String) (v : α) :
    a ∈ (dictInsert l k v).map Prod.fst ↔ a ∈ l.map Prod.fst ∨ a = k := by
  rw [keys_dictInsert]
  by_cases h : k ∈ l.map Prod.fst
  · simp only [if_pos h]
    constructor
    · exact Or.inl
    · rintro (ha | rfl) <;> [exact ha; exact h]
  · simp [if_neg h]

theorem bfsVisit_inv {table : List (String × String)}
    {upstream : String → String → Option (List Tx)} {s : BfsState}
    {address : String} {depth : Nat} {rest : List (String × Nat)}
    (hInv : Inv table upstream s) (hq : s.queue = (address, depth) :: rest) :
    Inv table upstream (bfsVisit table upstream address depth rest s) := by
  have hhd : (address, depth) ∈ s.enqueueLog :=
    hInv.queue_log _ (by simp [hq])
  have hvis : address ∈ s.visited := hInv.log_vis _ hhd
  unfold bfsVisit
  refine ⟨?_, ?_, ?_, ?_, ?_, ?_, ?_, ?_, ?_, ?_, ?_⟩
  · exact hInv.vis_nodup
  · rw [keys_dictInsert]
    by_cases h : address ∈ s.graph.map Prod.fst
    · simpa [h] using hInv.graph_nodup
    · simp only [if_neg h]
      exact nodup_snoc _ _ hInv.graph_nodup h
  · intro e he
    exact hInv.queue_log e (by simp [hq, he])
  · exact hInv.log_vis
  · exact hInv.vis_log
  · exact hInv.log_depth
  · intro a ha
    rw [mem_keys_dictInsert] at ha
    rcases ha with ha | rfl
    · exact hInv.graph_vis a ha
    · exact hvis
  · intro a ha
    rcases hInv.vis_gq a ha with hg | ⟨d, hd⟩
    · exact Or.inl ((mem_keys_dictInsert _ _ _ _).mpr (Or.inl hg))
    · rw [hq] at hd
      rcases List.mem_cons.mp hd with he | hd
      · rcases Prod.mk.injEq .. ▸ he with ⟨rfl, rfl⟩
        exact Or.inl ((mem_keys_dictInsert _ _ _ _).mpr (Or.inr rfl))
      · exact Or.inr ⟨d, hd⟩
  · intro a r hr
    by_cases ha : a = address
    · subst ha
      rw [lookupD_dictInsert_self] at hr
      cases hr
      exact hhd
    · rw [lookupD_dictInsert_ne _ _ _ _ ha] at hr
      exact hInv.graph_depth a r hr
  · intro a r hr
    by_cases ha : a = address
    · subst ha
      rw [lookupD_dictInsert_self] at hr
      cases hr
      rfl
    · rw [lookupD_dictInsert_ne _ _ _ _ ha] at hr
      exact hInv.graph_rec a r hr
  · exact hInv.edge_inv

theorem bfsVisit_enqueueLog (table : List (String × String))
    (upstream : String → String → Option (List Tx)) (address : String) (depth : Nat)
    (rest : List (String × Nat)) (s : BfsState) :
    (bfsVisit table upstream address depth rest s).enqueueLog = s.enqueueLog := by
  unfold bfsVisit
  by_cases h : (analyze_address table upstream address).is_exchange_deposit <;> simp [h]

theorem bfsStep_inv {table : List (String × String)}
    {upstream : String → String → Option (List Tx)} {max_depth : Nat}
    {direction : String} {s : BfsState} (hInv : Inv table upstream s) :
    Inv table upstream (bfsStep table upstream max_depth direction s) := by
  rcases hq : s.queue with _ | ⟨⟨address, depth⟩, rest⟩
  · simpa [bfsStep, hq] using hInv
  · have hhd : (address, depth) ∈ s.enqueueLog := hInv.queue_log _ (by simp [hq])
    have hbase := bfsVisit_inv hInv hq
    have hctx : (address, depth) ∈
        (bfsVisit table upstream address depth rest s).enqueueLog := by
      rw [bfsVisit_enqueueLog]; exact hhd
    unfold bfsStep
    rw [hq]
    by_cases hd : depth ≥ max_depth
    · simpa [hd] using hbase
    · simpa [hd] using foldPeers_inv _ _ hbase hctx

theorem bfsLoop_inv {table : List (String × String)}
    {upstream : String → String → Option (List Tx)} {max_depth : Nat}
    {direction : String} (fuel : Nat) (s : BfsState) (hInv : Inv table upstream s) :
    Inv table upstream (bfsLoop table upstream max_depth direction fuel s) := by
  induction fuel generalizing s with
  | zero => exact hInv
  | succ n ih =>
      rcases hq : s.queue with _ | ⟨e, rest⟩
      · simpa [bfsLoop, hq] using hInv
      · rw [bfsLoop, hq]
        exact ih _ (bfsStep_inv hInv)

/-- One step of seed initialization preserves the init-phase state shape:
the invariant, depth-0 log entries, and log = queue. -/
theorem seedStep_inv {table : List (String × String)}
    {upstream : String → String → Option (List Tx)} {s : BfsState} (a : String)
    (hInv : Inv table upstream s) (hdepths : ∀ e ∈ s.enqueueLog, e.2 = 0)
    (hqlog : s.enqueueLog = s.queue) :
    Inv table upstream (seedStep s a) ∧
      (∀ e ∈ (seedStep s a).enqueueLog, e.2 = 0) ∧
      (seedStep s a).enqueueLog = (seedStep s a).queue ∧
      (seedStep s a).enqueueLog = s.enqueueLog ++ [(pyLower a, 0)] ∧
      (seedStep s a).graph = s.graph ∧ (seedStep s a).edgeLog = s.edgeLog := by
  unfold seedStep
  refine ⟨⟨?_, ?_, ?_, ?_, ?_, ?_, ?_, ?_, ?_, ?_, ?_⟩, ?_, ?_, rfl, rfl, rfl⟩
  · exact insertSet_nodup _ _ hInv.vis_nodup
  · exact hInv.graph_nodup
  · intro e he
    simp only [List.mem_append, List.mem_singleton] at he ⊢
    rcases he with he | he
    · exact Or.inl (hInv.queue_log e he)
    · exact Or.inr he
  · intro e he
    simp only [List.mem_append, List.mem_singleton] at he
    rw [mem_insertSet]
    rcases he with he | he
    · exact Or.inl (hInv.log_vis e he)
    · exact Or.inr (by simp [he])
  · intro b hb
    rw [mem_insertSet] at hb
    rcases hb with hb | rfl
    · obtain ⟨d, hd⟩ := hInv.vis_log b hb
      exact ⟨d, by simp [hd]⟩
    · exact ⟨0, by simp⟩
  · intro b d1 d2 h1 h2
    simp only [List.mem_append, List.mem_singleton, Prod.mk.injEq] at h1 h2
    rcases h1 with h1 | ⟨_, rfl⟩
    · rcases h2 with h2 | ⟨_, rfl⟩
      · exact hInv.log_depth b d1 d2 h1 h2
      · exact hdepths _ h1
    · rcases h2 with h2 | ⟨_, rfl⟩
      · exact (hdepths _ h2).symm
      · rfl
  · intro b hb
    rw [mem_insertSet]
    exact Or.inl (hInv.graph_vis b hb)
  · intro b hb
    rw [mem_insertSet] at hb
    rcases hb with hb | rfl
    · rcases hInv.vis_gq b hb with hbg | ⟨d, hd⟩
      · exact Or.inl hbg
      · exact Or.inr ⟨d, by simp [hd]⟩
    · exact Or.inr ⟨0, by simp⟩
  · intro b r hr
    simp only [List.mem_append, List.mem_singleton]
    exact Or.inl (hInv.graph_depth b r hr)
  · exact hInv.graph_rec
  · intro u du v huv
    obtain ⟨h1, h2, h3⟩ := hInv.edge_inv u du v huv
    exact ⟨h1, by simp [h2], by simp [h3]⟩
  · intro e he
    simp only [List.mem_append, List.mem_singleton] at he
    rcases he with he | he
    · exact hdepths _ he
    · simp [he]
  · rw [hqlog]

/-- After seed initialization: the invariant holds, all log entries are at
depth 0, the log equals the queue and lists exactly the lower-cased
seeds, and graph and edge log are empty. -/
theorem bfsInit_inv (table : List (String × String))
    (upstream : String → String → Option (List Tx)) (seeds : List String) :
    Inv table upstream (bfsInit seeds) ∧
      (∀ e ∈ (bfsInit seeds).enqueueLog, e.2 = 0) ∧
      (bfsInit seeds).enqueueLog = (bfsInit seeds).queue ∧
      (bfsInit seeds).enqueueLog.map Prod.fst = seeds.map pyLower ∧
      (bfsInit seeds).graph = [] ∧ (bfsInit seeds).edgeLog = [] := by
  suffices h : ∀ (start : BfsState),
      Inv table upstream start → (∀ e ∈ start.enqueueLog, e.2 = 0) →
      start.enqueueLog = start.queue →
      Inv table upstream (seeds.foldl seedStep start) ∧
        (∀ e ∈ (seeds.foldl seedStep start).enqueueLog, e.2 = 0) ∧
        (seeds.foldl seedStep start).enqueueLog = (seeds.foldl seedStep start).queue ∧
        (seeds.foldl seedStep start).enqueueLog =
          start.enqueueLog ++ seeds.map (fun a => (pyLower a, 0)) ∧
        (seeds.foldl seedStep start).graph = start.graph ∧
        (seeds.foldl seedStep start).edgeLog = start.edgeLog by
    have h0 : Inv table upstream emptyBfsState :=
      ⟨List.nodup_nil, List.nodup_nil, by simp [emptyBfsState], by simp [emptyBfsState],
        by simp [emptyBfsState], by simp [emptyBfsState], by simp [emptyBfsState],
        by simp [emptyBfsState], by simp [emptyBfsState, lookupD_nil],
        by simp [emptyBfsState, lookupD_nil], by simp [emptyBfsState]⟩
    have := h emptyBfsState h0 (by simp [emptyBfsState]) rfl
    refine ⟨this.1, this.2.1, this.2.2.1, ?_, ?_, ?_⟩
    · rw [bfsInit, this.2.2.2.1]
      simp [emptyBfsState]
    · rw [bfsInit, this.2.2.2.2.1]; rfl
    · rw [bfsInit, this.2.2.2.2.2]; rfl
  intro start hInv hdepths hqlog
  induction seeds generalizing start with
  | nil => exact ⟨hInv, hdepths, hqlog, by simp, rfl, rfl⟩
  | cons a rest ih =>
      simp only [List.foldl_cons]
      obtain ⟨h1, h2, h3, h4, h5, h6⟩ := seedStep_inv a hInv hdepths hqlog
      obtain ⟨g1, g2, g3, g4, g5, g6⟩ := ih _ h1 h2 h3
      refine ⟨g1, g2, g3, ?_, by rw [g5, h5], by rw [g6, h6]⟩
      rw [g4, h4]
      simp

/-- Every state reached by `bfs_expand` satisfies the traversal
invariant. -/
theorem bfs_expand_inv (table : List (String × String))
    (upstream : String → String → Option (List Tx)) (seeds : List String)
    (max_depth : Nat) (direction : String) (fuel : Nat) :
    Inv table upstream (bfs_expand table upstream seeds max_depth direction fuel) :=
  bfsLoop_inv fuel _ (bfsInit_inv table upstream seeds).1

/-! #### At-most-once enqueueing (duplicate-free enqueue log) -/

theorem processPeer_logNodup {table : List (String × String)}
    {upstream : String → String → Option (List Tx)} {s : BfsState}
    {address : String} {depth : Nat} (hInv : Inv table upstream s)
    (hn : (s.enqueueLog.map Prod.fst).Nodup) (x : String) :
    ((processPeer table address depth s x).enqueueLog.map Prod.fst).Nodup := by
  rcases processPeer_cases table address depth s x with ⟨_, heq⟩ | ⟨name, _, _, heq⟩ |
    ⟨hv, _, heq⟩
  · rwa [heq]
  · rwa [heq]
  · rw [heq]
    simp only [List.map_append, List.map_cons, List.map_nil]
    refine nodup_snoc _ _ hn ?_
    intro hx
    obtain ⟨e, he, hex⟩ := List.mem_map.mp hx
    exact hv (hex ▸ hInv.log_vis e he)

theorem foldPeers_logNodup {table : List (String × String)}
    {upstream : String → String → Option (List Tx)}
    {address : String} {depth : Nat} (next : List String) (s : BfsState)
    (hInv : Inv table upstream s) (hctx : (address, depth) ∈ s.enqueueLog)
    (hn : (s.enqueueLog.map Prod.fst).Nodup) :
    (((next.foldl (processPeer table address depth) s)).enqueueLog.map Prod.fst).Nodup := by
  induction next generalizing s with
  | nil => exact hn
  | cons x rest ih =>
      exact ih _ (processPeer_inv hInv hctx x) (processPeer_enqueueLog_mono hctx)
        (processPeer_logNodup hInv hn x)

theorem bfsStep_logNodup {table : List (String × String)}
    {upstream : String → String → Option (List Tx)} {max_depth : Nat}
    {direction : String} {s : BfsState} (hInv : Inv table upstream s)
    (hn : (s.enqueueLog.map Prod.fst).Nodup) :
    ((bfsStep table upstream max_depth direction s).enqueueLog.map Prod.fst).Nodup := by
  rcases hq : s.queue with _ | ⟨⟨address, depth⟩, rest⟩
  · simpa [bfsStep, hq] using hn
  · have hhd : (address, depth) ∈ s.enqueueLog := hInv.queue_log _ (by simp [hq])
    have hbase := bfsVisit_inv hInv hq
    have hctx : (address, depth) ∈
        (bfsVisit table upstream address depth rest s).enqueueLog := by
      rw [bfsVisit_enqueueLog]; exact hhd
    have hnb : ((bfsVisit table upstream address depth rest s).enqueueLog.map
        Prod.fst).Nodup := by
      rw [bfsVisit_enqueueLog]; exact hn
    unfold bfsStep
    rw [hq]
    by_cases hd : depth ≥ max_depth
    · simpa [hd] using hnb
    · simpa [hd] using foldPeers_logNodup _ _ hbase hctx hnb

theorem bfsLoop_logNodup {table : List (String × String)}
    {upstream : String → String → Option (List Tx)} {max_depth : Nat}
    {direction : String} (fuel : Nat) (s : BfsState) (hInv : Inv table upstream s)
    (hn : (s.enqueueLog.map Prod.fst).Nodup) :
    ((bfsLoop table upstream max_depth direction fuel s).enqueueLog.map
      Prod.fst).Nodup := by
  induction fuel generalizing s with
  | zero => exact hn
  | succ n ih =>
      rcases hq : s.queue with _ | ⟨e, rest⟩
      · simpa [bfsLoop, hq] using hn
      · rw [bfsLoop, hq]
        exact ih _ (bfsStep_inv hInv) (bfsStep_logNodup hInv hn)

/-! #### A `max_depth = 0` run only drains the queue (for Claim C3) -/

theorem bfsVisit_parts (table : List (String × String))
    (upstream : String → String → Option (List Tx)) (address : String) (depth : Nat)
    (rest : List (String × Nat)) (s : BfsState) :
    (bfsVisit table upstream address depth rest s).visited = s.visited ∧
    (bfsVisit table upstream address depth rest s).queue = rest ∧
    (bfsVisit table upstream address depth rest s).edgeLog = s.edgeLog ∧
    (bfsVisit table upstream address depth rest s).graph =
      dictInsert s.graph address ⟨depth, analyze_address table upstream address⟩ := by
  unfold bfsVisit
  by_cases h : (analyze_address table upstream address).is_exchange_deposit <;>
    simp [h]

/-- When every queued entry already sits at `max_depth`, the loop just
pops entries one per fuel unit and records them; nothing is enqueued and
no traversal edge is logged. -/
theorem bfsLoop_drain (table : List (String × String))
    (upstream : String → String → Option (List Tx)) (direction : String)
    (fuel : Nat) (s : BfsState) (hz : ∀ e ∈ s.queue, e.2 = 0) :
    (bfsLoop table upstream 0 direction fuel s).visited = s.visited ∧
    (bfsLoop table upstream 0 direction fuel s).enqueueLog = s.enqueueLog ∧
    (bfsLoop table upstream 0 direction fuel s).edgeLog = s.edgeLog ∧
    (bfsLoop table upstream 0 direction fuel s).queue = s.queue.drop fuel ∧
    ∀ a, lookupD (bfsLoop table upstream 0 direction fuel s).graph a =
      if a ∈ (s.queue.take fuel).map Prod.fst then
        some ⟨0, analyze_address table upstream a⟩
      else lookupD s.graph a := by
  induction fuel generalizing s with
  | zero => exact ⟨rfl, rfl, rfl, rfl, fun a => by simp [bfsLoop]⟩
  | succ n ih =>
      rcases hq : s.queue with _ | ⟨⟨a0, d0⟩, rest⟩
      · refine ⟨?_, ?_, ?_, ?_, fun a => ?_⟩ <;> simp [bfsLoop, hq]
      · have hd0 : d0 = 0 := hz (a0, d0) (by simp [hq])
        subst hd0
        have hstep : bfsStep table upstream 0 direction s =
            bfsVisit table upstream a0 0 rest s := by
          unfold bfsStep
          rw [hq]
          simp
        rw [bfsLoop, hq]
        obtain ⟨hv, hqe, hel, hg⟩ := bfsVisit_parts table upstream a0 0 rest s
        have hz' : ∀ e ∈ (bfsVisit table upstream a0 0 rest s).queue, e.2 = 0 := by
          rw [hqe]
          exact fun e he => hz e (by simp [hq, he])
        obtain ⟨g1, g2, g3, g4, g5⟩ := ih _ hz'
        rw [hstep]
        refine ⟨by rw [g1, hv], by rw [g2, bfsVisit_enqueueLog],
          by rw [g3, hel], by rw [g4, hqe]; simp, fun a => ?_⟩
        rw [g5 a, hqe, hg]
        by_cases hmem : a ∈ List.take n (List.map Prod.fst rest)
        · simp [hmem, List.map_take]
        · by_cases ha0 : a = a0
          · subst ha0
            simp [hmem, List.map_take, lookupD_dictInsert_self]
          · simp [hmem, List.map_take, ha0, lookupD_dictInsert_ne _ _ _ _ ha0]

end NetworkExpander

/-! ## `src/tools/multi_hop_tracer_v2.py` — `trace_hops`

The Blockscout fetch (`get_outgoing_transactions`, including address
canonicalization) is an oracle `String → List BsTxOut`.  `KNOWN_ADDRESSES`
is a parameter (the source literal is redacted in the repository).  -/

namespace MultiHopTracerV2

/-- One item of the Blockscout `transactions` response, with the fields
`trace_hops` reads: `value` (wei), `to.hash` (absent for contract
creation), `hash`, `timestamp`. -/
structure BsTxOut where
  value : Nat
  toHash : Option String
  hash : String
  timestamp : String
deriving DecidableEq

/-- One record of the filtered `outgoing` list. -/
structure TxInfo where
  toAddr : String
  eth : ℚ
  hash : String
  timestamp : String
deriving DecidableEq

/-- One entry of `graph['edges']`. -/
structure V2Edge where
  fromAddr : String
  toAddr : String
  eth : ℚ
  hash : String
deriving DecidableEq

/-- One entry of `graph['endpoints']`. -/
structure V2Endpoint where
  address : String
  label : String
  kind : String
  eth : ℚ
  path : List String
deriving DecidableEq

/-- One entry of `graph['nodes']`. -/
structure V2Node where
  tx_count : Nat
  outgoing_tracked : Nat
  label : Option String
deriving DecidableEq

/-- `graph['totals']`. -/
structure V2Totals where
  addresses_traced : Nat
  total_eth_tracked : ℚ
  eth_to_exchanges : ℚ
  eth_to_mixers : ℚ
  eth_to_unknown : ℚ
deriving DecidableEq

/-- The traversal state of `trace_hops`.  `enqueueLog` records every
queue append and `procLog` every processed (non-skipped) pop, both as
`(lower-cased address, depth)`; they are history variables with no reads
in the transition function. -/
structure V2State where
  nodes : List (String × V2Node)
  edges : List V2Edge
  endpoints : List V2Endpoint
  totals : V2Totals
  visited : List String
  queue : List (String × Nat × List String)
  enqueueLog : List (String × Nat)
  procLog : List (String × Nat)
deriving DecidableEq

/-- Python's substring test `pat in s`. -/
def containsSub (s pat : String) : Bool := (s.splitOn pat).length != 1

/-- The exchange-name list of the label dispatch in `trace_hops`. -/
def exchangeNames : List String := ["Binance", "Coinbase", "Kraken", "OKX", "Bybit"]

/-- The `outgoing` filter of `trace_hops`: keep transfers of at least
`min_eth` (wei scaled by `1e18`) with a `to` address present. -/
def filterOutgoing (min_eth : ℚ) (txs : List BsTxOut) : List TxInfo :=
  txs.filterMap (fun tx =>
    let value : ℚ := (tx.value : ℚ) / 10 ^ 18
    if min_eth ≤ value then
      match tx.toHash with
      | some h => some ⟨h, value, tx.hash, tx.timestamp⟩
      | none => none
    else none)

/-- The body of `for tx_info in outgoing:` — record the edge, dispatch on
the destination's label (mixer / exchange endpoints terminate; unlabeled
destinations are enqueued when unvisited and within depth). -/
def v2ProcessTx (known : List (String × String)) (current_addr : String)
    (current_depth : Nat) (path : List String) (depth : Nat) (s : V2State)
    (t : TxInfo) : V2State :=
  let to_addr := t.toAddr
  let to_addr_lower := pyLower to_addr
  let value := t.eth
  let s1 : V2State :=
    { s with totals := { s.totals with
               total_eth_tracked := s.totals.total_eth_tracked + value },
             edges := s.edges ++ [⟨current_addr, to_addr, value, t.hash⟩] }
  match lookupD known to_addr_lower with
  | some label =>
      if containsSub label "Tornado" then
        { s1 with totals := { s1.totals with
                    eth_to_mixers := s1.totals.eth_to_mixers + value },
                  endpoints := s1.endpoints ++
                    [⟨to_addr, label, "mixer", value, path ++ [to_addr]⟩] }
      else if exchangeNames.any (fun x => containsSub label x) then
        { s1 with totals := { s1.totals with
                    eth_to_exchanges := s1.totals.eth_to_exchanges + value },
                  endpoints := s1.endpoints ++
                    [⟨to_addr, label, "exchange", value, path ++ [to_addr]⟩] }
      else s1
  | none =>
      let s2 : V2State :=
        { s1 with totals := { s1.totals with
                    eth_to_unknown := s1.totals.eth_to_unknown + value } }
      if to_addr_lower ∉ s2.visited ∧ current_depth + 1 < depth then
        { s2 with queue := s2.queue ++ [(to_addr, current_depth + 1, path ++ [to_addr])],
                  enqueueLog := s2.enqueueLog ++ [(to_addr_lower, current_depth + 1)] }
      else s2

/-- One iteration of the `while queue:` loop of `trace_hops`: pop, skip
if already visited or at the depth bound (note: *before* marking
visited), otherwise mark visited, fetch outgoing transfers, process each
qualifying transfer, and store the node record. -/
def v2Step (known : List (String × String)) (fetchOut : String → List BsTxOut)
    (depth : Nat) (min_eth : ℚ) (s : V2State) : V2State :=
  match s.queue with
  | [] => s
  | (current_addr, current_depth, path) :: rest =>
      let s0 : V2State := { s with queue := rest }
      let cal := pyLower current_addr
      if cal ∈ s0.visited ∨ current_depth ≥ depth then s0
      else
        let s1 : V2State :=
          { s0 with visited := s0.visited ++ [cal],
                    totals := { s0.totals with
                      addresses_traced := s0.totals.addresses_traced + 1 },
                    procLog := s0.procLog ++ [(cal, current_depth)] }
        let txs := fetchOut current_addr
        let outgoing := filterOutgoing min_eth txs
        let s2 := outgoing.foldl
          (v2ProcessTx known current_addr current_depth path depth) s1
        { s2 with nodes :=
            dictInsert s2.nodes cal ⟨txs.length, outgoing.length, lookupD known cal⟩ }

/-- The `while queue:` loop of `trace_hops` on explicit fuel. -/
def v2Loop (known : List (String × String)) (fetchOut : String → List BsTxOut)
    (depth : Nat) (min_eth : ℚ) : Nat → V2State → V2State
  | 0, s => s
  | fuel + 1, s =>
      match s.queue with
      | [] => s
      | _ :: _ => v2Loop known fetchOut depth min_eth fuel
          (v2Step known fetchOut depth min_eth s)

/-- The initial state of `trace_hops`: empty graph, empty visited set,
the queue holding `(start_addr, 0, [start_addr])`. -/
def v2Init (start_addr : String) : V2State :=
  { nodes := [], edges := [], endpoints := [],
    totals := ⟨0, 0, 0, 0, 0⟩,
    visited := [], queue := [(start_addr, 0, [start_addr])],
    enqueueLog := [(pyLower start_addr, 0)], procLog := [] }

/-- `trace_hops(start_addr, depth, min_eth)` run on `fuel` loop
iterations. -/
def trace_hops (known : List (String × String)) (fetchOut : String → List BsTxOut)
    (start_addr : String) (depth : Nat) (min_eth : ℚ) (fuel : Nat) : V2State :=
  v2Loop known fetchOut depth min_eth fuel (v2Init start_addr)

end MultiHopTracerV2

/-! ## `src/tools/address_monitor_daemon.py` — `check_addresses`

The RPC layer (`get_balances` / `get_tx_counts`) returns batched results;
a failed or null RPC result is `none` and yields 0, as in the source.
Floats are exact rationals; `round(x, 6)` is modelled exactly (all values
used in theorems are exact at 6 decimals). -/

namespace MonitorDaemon

/-- `MIN_BALANCE_CHANGE = 0.01` (ETH). -/
def MIN_BALANCE_CHANGE : ℚ := 1 / 100

/-- `wei_to_eth`. -/
def wei_to_eth (wei : Nat) : ℚ := (wei : ℚ) / 10 ^ 18

/-- Python `round(x, 6)` on the exact rationals considered here. -/
def pyRound6 (q : ℚ) : ℚ := ((round (q * 1000000) : ℤ) : ℚ) / 1000000

/-- `get_balances`: zip the address list with the batched RPC results;
a missing result reads as balance 0. Keys are lower-cased (dict
semantics: a later duplicate key overwrites). -/
def get_balances (addresses : List String) (results : List (Option Nat)) :
    List (String × ℚ) :=
  (addresses.zip results).foldl
    (fun m p => dictInsert m (pyLower p.1)
      (match p.2 with | some r => wei_to_eth r | none => 0)) []

/-- `get_tx_counts`, same shape. -/
def get_tx_counts (addresses : List String) (results : List (Option Nat)) :
    List (String × Nat) :=
  (addresses.zip results).foldl
    (fun m p => dictInsert m (pyLower p.1)
      (match p.2 with | some r => r | none => 0)) []

/-- One watchlist entry's config (`{label, tier, priority}`). -/
structure WatchInfo where
  label : String
  tier : String
  priority : String
deriving DecidableEq

/-- One record of the persisted `state["addresses"]` map. -/
structure StateRec where
  balance : ℚ
  tx_count : Nat
  last_check : String
  label : String
deriving DecidableEq

/-- One alert record. -/
structure Alert where
  timestamp : String
  block : Nat
  address : String
  label : String
  balance_change_eth : ℚ
  new_transactions : Int
  current_balance : ℚ
  severity : String
deriving DecidableEq

/-- Python `balances.get(addr_lower, 0)`. -/
def balanceAt (balances : List (String × ℚ)) (key : String) : ℚ :=
  match lookupD balances key with
  | some b => b
  | none => 0

/-- Python `tx_counts.get(addr_lower, 0)`. -/
def txCountAt (tx_counts : List (String × Nat)) (key : String) : Nat :=
  match lookupD tx_counts key with
  | some t => t
  | none => 0

/-- Python `prev_states.get(addr_lower, {}).get("balance", 0)`. -/
def prevBalanceAt (prev : List (String × StateRec)) (key : String) : ℚ :=
  match lookupD prev key with
  | some r => r.balance
  | none => 0

/-- Python `prev_states.get(addr_lower, {}).get("tx_count", 0)`. -/
def prevTxAt (prev : List (String × StateRec)) (key : String) : Nat :=
  match lookupD prev key with
  | some r => r.tx_count
  | none => 0

/-- The alert the loop body of `check_addresses` emits for one watchlist
entry, if any, computed against a given state map: read current balance
and transaction count (default 0), read the prior record (missing
address ⇒ zero baseline), and alert when
`|balance_change| > MIN_BALANCE_CHANGE or tx_change > 0`, with severity
`high` past `|balance_change| > 10 or tx_change > 5`. -/
def alertOf (prev : List (String × StateRec)) (balances : List (String × ℚ))
    (tx_counts : List (String × Nat)) (now : String) (block : Nat)
    (entry : String × WatchInfo) : Option Alert :=
  let addr_lower := pyLower entry.1
  let balance_change := balanceAt balances addr_lower - prevBalanceAt prev addr_lower
  let tx_change : Int :=
    (txCountAt tx_counts addr_lower : Int) - (prevTxAt prev addr_lower : Int)
  if |balance_change| > MIN_BALANCE_CHANGE ∨ tx_change > 0 then
    some { timestamp := now, block := block, address := addr_lower,
           label := entry.2.label, balance_change_eth := pyRound6 balance_change,
           new_transactions := tx_change,
           current_balance := pyRound6 (balanceAt balances addr_lower),
           severity := if |balance_change| > 10 ∨ tx_change > 5 then "high" else "medium" }
  else none

/-- The loop body of `check_addresses` for one watchlist entry: store the
fresh record into the (mutating) state map and append the alert, if any.
The alert computation is `alertOf` against the current state map, exactly
as the source reads `prev_states` from the mutated `state` dict. -/
def checkOne (balances : List (String × ℚ)) (tx_counts : List (String × Nat))
    (now : String) (block : Nat) (acc : List (String × StateRec) × List Alert)
    (entry : String × WatchInfo) : List (String × StateRec) × List Alert :=
  let addr_lower := pyLower entry.1
  let newState := dictInsert acc.1 addr_lower
    ⟨balanceAt balances addr_lower, txCountAt tx_counts addr_lower, now, entry.2.label⟩
  (newState, acc.2 ++ (alertOf acc.1 balances tx_counts now block entry).toList)

/-- `check_addresses(watchlist, state)`: fold the per-entry check over the
watchlist, starting from the persisted prior state; returns the updated
state map and the list of alerts of this cycle. -/
def check_addresses (watchlist : List (String × WatchInfo))
    (prev : List (String × StateRec)) (balances : List (String × ℚ))
    (tx_counts : List (String × Nat)) (now : String) (block : Nat) :
    List (String × StateRec) × List Alert :=
  watchlist.foldl (checkOne balances tx_counts now block) (prev, [])

theorem alertOf_congr (st prev : List (String × StateRec))
    (balances : List (String × ℚ)) (tx_counts : List (String × Nat))
    (now : String) (block : Nat) (entry : String × WatchInfo)
    (h : lookupD st (pyLower entry.1) = lookupD prev (pyLower entry.1)) :
    alertOf st balances tx_counts now block entry =
      alertOf prev balances tx_counts now block entry := by
  have hb : prevBalanceAt st (pyLower entry.1) = prevBalanceAt prev (pyLower entry.1) := by
    unfold prevBalanceAt
    rw [h]
  have ht : prevTxAt st (pyLower entry.1) = prevTxAt prev (pyLower entry.1) := by
    unfold prevTxAt
    rw [h]
  simp only [alertOf, hb, ht]

/-- With no two watchlist entries colliding after lower-casing, the
alerts of one `check_addresses` cycle are exactly the per-entry alerts
computed against the initial prior-state map, in watchlist order. -/
theorem check_addresses_alerts (watchlist : List (String × WatchInfo))
    (prev : List (String × StateRec)) (balances : List (String × ℚ))
    (tx_counts : List (String × Nat)) (now : String) (block : Nat)
    (hnodup : (watchlist.map (fun e => pyLower e.1)).Nodup) :
    (check_addresses watchlist prev balances tx_counts now block).2 =
      watchlist.filterMap (alertOf prev balances tx_counts now block) := by
  suffices h : ∀ (wl : List (String × WatchInfo)) (st : List (String × StateRec))
      (acc : List Alert), (wl.map (fun e => pyLower e.1)).Nodup →
      (∀ e ∈ wl, lookupD st (pyLower e.1) = lookupD prev (pyLower e.1)) →
      (wl.foldl (checkOne balances tx_counts now block) (st, acc)).2 =
        acc ++ wl.filterMap (alertOf prev balances tx_counts now block) by
    simpa using h watchlist prev [] hnodup (fun e _ => rfl)
  intro wl
  induction wl with
  | nil => intro st acc _ _; simp
  | cons entry rest ih =>
      intro st acc hnd hag
      simp only [List.foldl_cons]
      have hstep : checkOne balances tx_counts now block (st, acc) entry =
          (dictInsert st (pyLower entry.1)
             ⟨balanceAt balances (pyLower entry.1), txCountAt tx_counts (pyLower entry.1),
              now, entry.2.label⟩,
           acc ++ (alertOf prev balances tx_counts now block entry).toList) := by
        unfold checkOne
        rw [alertOf_congr st prev _ _ _ _ _ (hag entry (by simp))]
      rw [hstep]
      have hnd' : (rest.map (fun e => pyLower e.1)).Nodup := by
        simpa using hnd.of_cons
      have hhead : pyLower entry.1 ∉ rest.map (fun e => pyLower e.1) := by
        have := hnd
        simp only [List.map_cons, List.nodup_cons] at this
        exact this.1
      have hag' : ∀ e ∈ rest,
          lookupD (dictInsert st (pyLower entry.1)
            ⟨balanceAt balances (pyLower entry.1), txCountAt tx_counts (pyLower entry.1),
             now, entry.2.label⟩) (pyLower e.1) = lookupD prev (pyLower e.1) := by
        intro e he
        have hne : pyLower e.1 ≠ pyLower entry.1 := by
          intro hcontra
          exact hhead (hcontra ▸ List.mem_map_of_mem (fun e => pyLower e.1) he)
        rw [lookupD_dictInsert_ne _ _ _ _ hne]
        exact hag e (by simp [he])
      rw [ih _ _ hnd' hag']
      cases halert : alertOf prev balances tx_counts now block entry with
      | none => simp [List.filterMap_cons, halert]
      | some al => simp [List.filterMap_cons, halert]

theorem alertOf_address (prev : List (String × StateRec)) (balances : List (String × ℚ))
    (tx_counts : List (String × Nat)) (now : String) (block : Nat)
    (entry : String × WatchInfo) (al : Alert)
    (h : alertOf prev balances tx_counts now block entry = some al) :
    al.address = pyLower entry.1 := by
  simp only [alertOf] at h
  split at h
  · cases h
    rfl
  · cases h

theorem filter_filterMap_alertOf_ne (prev : List (String × StateRec))
    (balances : List (String × ℚ)) (tx_counts : List (String × Nat)) (now : String)
    (block : Nat) (rest : List (String × WatchInfo)) (key : String)
    (h : ∀ e ∈ rest, pyLower e.1 ≠ key) :
    (rest.filterMap (alertOf prev balances tx_counts now block)).filter
      (fun al => decide (al.address = key)) = [] := by
  induction rest with
  | nil => rfl
  | cons e rest ih =>
      rw [List.filterMap_cons]
      cases he : alertOf prev balances tx_counts now block e with
      | none => exact ih (fun e2 he2 => h e2 (by simp [he2]))
      | some al =>
          rw [List.filter_cons]
          have hne : ¬(al.address = key) := by
            rw [alertOf_address _ _ _ _ _ _ _ he]
            exact h e (by simp)
          simp only [hne, decide_eq_false hne]
          exact ih (fun e2 he2 => h e2 (by simp [he2]))

/-- With no lower-cased key collisions, the alerts of one cycle carrying
a given watchlist entry's address are exactly that entry's own alert (one
or none). -/
theorem alerts_for_entry (watchlist : List (String × WatchInfo))
    (prev : List (String × StateRec)) (balances : List (String × ℚ))
    (tx_counts : List (String × Nat)) (now : String) (block : Nat)
    (hnodup : (watchlist.map (fun e => pyLower e.1)).Nodup)
    (entry : String × WatchInfo) (hmem : entry ∈ watchlist) :
    ((check_addresses watchlist prev balances tx_counts now block).2.filter
      (fun al => decide (al.address = pyLower entry.1))) =
      (alertOf prev balances tx_counts now block entry).toList := by
  rw [check_addresses_alerts watchlist prev balances tx_counts now block hnodup]
  induction watchlist with
  | nil => cases hmem
  | cons e rest ih =>
      have hndrest : (rest.map (fun e => pyLower e.1)).Nodup := by
        simpa using hnodup.of_cons
      have hhead : pyLower e.1 ∉ rest.map (fun e2 => pyLower e2.1) := by
        have := hnodup
        simp only [List.map_cons, List.nodup_cons] at this
        exact this.1
      rw [List.filterMap_cons]
      rcases List.mem_cons.mp hmem with rfl | hmem2
      · cases he : alertOf prev balances tx_counts now block entry with
        | none =>
            simp only [Option.toList_none]
            exact filter_filterMap_alertOf_ne _ _ _ _ _ rest _
              (fun e2 he2 hc =>
                hhead (by rw [← hc]; exact List.mem_map_of_mem (fun e2 => pyLower e2.1) he2))
        | some al =>
            rw [List.filter_cons]
            have hal : al.address = pyLower entry.1 := alertOf_address _ _ _ _ _ _ _ he
            simp only [hal, decide_eq_true rfl, decide_true_eq_true]
            rw [filter_filterMap_alertOf_ne _ _ _ _ _ rest _
              (fun e2 he2 hc =>
                hhead (by rw [← hc]; exact List.mem_map_of_mem (fun e2 => pyLower e2.1) he2))]
            rfl
      · have hne : pyLower e.1 ≠ pyLower entry.1 := by
          intro hc
          exact hhead (hc ▸ List.mem_map_of_mem (fun e2 => pyLower e2.1) hmem2)
        cases he : alertOf prev balances tx_counts now block e with
        | none => exact ih hndrest hmem2
        | some al =>
            rw [List.filter_cons]
            have hal : al.address = pyLower e.1 := alertOf_address _ _ _ _ _ _ _ he
            have hne2 : ¬(al.address = pyLower entry.1) := by rw [hal]; exact hne
            simp only [hne2, decide_eq_false hne2]
            exact ih hndrest hmem2

end MonitorDaemon

/-! ## `RateLimiter` of `src/network_expander.py` / `src/haiku_tracer.py`

Timed sequential model.  The lock is held for the whole body of
`acquire` — including the `time.sleep` — so concurrent callers are fully
serialized and a run is a sequence of calls, each entering at a real
time not earlier than the previous call's completion.  `acquire` takes
the caller's entry time (`time.time()`) and returns the new limiter
state and the completion (grant) time: `now` when a full token was
available, `now + wait_time` after sleeping the deficit.  As in the
source, `last_update` is set to the *entry* time even when the call then
sleeps. -/

namespace Limiter

structure LimiterState where
  rate : ℚ
  tokens : ℚ
  last_update : ℚ
deriving DecidableEq

/-- `RateLimiter.__init__(rate)` at creation time `t0`. -/
def mkLimiter (rate : ℚ) (t0 : ℚ) : LimiterState :=
  { rate := rate, tokens := rate, last_update := t0 }

/-- `RateLimiter.acquire`, entered at time `now`. -/
def acquire (s : LimiterState) (now : ℚ) : LimiterState × ℚ :=
  let elapsed := now - s.last_update
  let tokens := min s.rate (s.tokens + elapsed * s.rate)
  if tokens < 1 then
    let wait_time := (1 - tokens) / s.rate
    ({ s with tokens := 0, last_update := now }, now + wait_time)
  else
    ({ s with tokens := tokens - 1, last_update := now }, now)

/-- Grant times of `n` back-to-back `acquire` calls: the first enters at
`arrival`, and each subsequent call enters the moment the previous one
completes (the earliest time the lock can be re-taken). -/
def grantsFrom (s : LimiterState) (arrival : ℚ) : Nat → List ℚ
  | 0 => []
  | n + 1 =>
      let r := acquire s arrival
      r.2 :: grantsFrom r.1 r.2 n

end Limiter

/-! ## Claims -/

open NetworkExpander MultiHopTracerV2 MonitorDaemon Limiter

/-- A transfer record with only `from`/`to`/`value` significant (the other
fields are defaults), used in concrete runs. -/
def sampleTx (f t : String) (v : Nat) : Tx :=
  { fromAddr := f, toAddr := t, value := v, tokenSymbol := "", tokenDecimal := 18,
    timeStamp := 0 }

/-- Claim C4 (counterexample): the short-circuit does NOT apply on an empty
transfer list — `is_exchange_deposit_pattern` returns `(False, None)` for an
empty `txs` before consulting the static table, so the Gate.io deposit
address, although present in `KNOWN_EXCHANGE_HOT_WALLETS`, classifies as
`Unknown` with an empty transfer list, contradicting the claim's "this
short-circuit applies even when the transfer list is empty". -/
theorem C4_counterexample :
    lookupD KNOWN_EXCHANGE_HOT_WALLETS "0x0d0707963952f2fba59dd06f2b425ace40b492fe" =
      some "Gate.io Deposit" ∧
    classify KNOWN_EXCHANGE_HOT_WALLETS "0x0d0707963952f2fba59dd06f2b425ace40b492fe" [] =
      Classification.Unknown := by
  exact ⟨by decide, by decide⟩

/-- Claim C4 (amended): for every address and *non-empty* transfer list, if
the address is present in the static known-endpoint table, `classify`
returns `KnownEndpoint` immediately, regardless of any heuristic; with an
empty transfer list the classifier returns `Unknown` even for table
addresses (the `if not txs` guard runs first). -/
theorem C4_table_short_circuit (table : List (String × String)) (address : String)
    (txs : List Tx) (name : String) (htxs : txs ≠ [])
    (hlook : lookupD table (pyLower address) = some name) :
    classify table address txs = Classification.KnownEndpoint name :=
  classify_known table address txs name htxs hlook

/-- Claim C4 witness: the Gate.io deposit address with one (arbitrary)
transfer classifies as `KnownEndpoint "Gate.io Deposit"`. -/
theorem C4_witness :
    classify KNOWN_EXCHANGE_HOT_WALLETS "0x0d0707963952f2fba59dd06f2b425ace40b492fe"
      [sampleTx "0xaaa" "0xbbb" 1] =
      Classification.KnownEndpoint "Gate.io Deposit" :=
  C4_table_short_circuit KNOWN_EXCHANGE_HOT_WALLETS
    "0x0d0707963952f2fba59dd06f2b425ace40b492fe" [sampleTx "0xaaa" "0xbbb" 1]
    "Gate.io Deposit" (by decide) (by decide)

/-- Claim C6: for every address outside the static table and every transfer
list, `classify` returns `DepositFunnel` with swept-to destination `d` and
label `lbl` exactly when the inflow count is between 1 and 20 inclusive, at
least one outflow exists, `d` is the modal destination of the outflows
(the destination receiving the plurality of outflow transfers, ties broken
by the earliest-seen destination — `IsModalDest`), and `d` is a known
endpoint labelled `lbl`.  (`classify` is a plain function of
`(table, address, txs)`, so purity/determinism of the classification is
definitional in this embedding.) -/
theorem C6_deposit_funnel_characterization (table : List (String × String))
    (address : String) (txs : List Tx) (d lbl : String)
    (hnot : lookupD table (pyLower address) = none) :
    classify table address txs = Classification.DepositFunnel d lbl ↔
      (1 ≤ (inflowsOf (pyLower address) txs).length ∧
       (inflowsOf (pyLower address) txs).length ≤ 20 ∧
       outflowsOf (pyLower address) txs ≠ [] ∧
       IsModalDest (destinations (outflowsOf (pyLower address) txs)) d ∧
       lookupD table d = some lbl) :=
  classify_funnel_iff table address txs d lbl hnot

/-- Claim C6 witness: an address with one inflow and two outflows whose
destinations tie at one transfer each is classified `DepositFunnel` swept
to the earliest-seen destination (the Binance 14 hot wallet), not the
later unknown one. -/
theorem C6_witness :
    classify KNOWN_EXCHANGE_HOT_WALLETS "0xaaa"
      [sampleTx "0xppp" "0xaaa" 5,
       sampleTx "0xaaa" "0x28c6c06298d514db089934071355e5743bf21d60" 3,
       sampleTx "0xaaa" "0xzzz" 2] =
      Classification.DepositFunnel "0x28c6c06298d514db089934071355e5743bf21d60"
        "Binance 14" :=
  (C6_deposit_funnel_characterization KNOWN_EXCHANGE_HOT_WALLETS "0xaaa"
    [sampleTx "0xppp" "0xaaa" 5,
     sampleTx "0xaaa" "0x28c6c06298d514db089934071355e5743bf21d60" 3,
     sampleTx "0xaaa" "0xzzz" 2]
    "0x28c6c06298d514db089934071355e5743bf21d60" "Binance 14" (by decide)).mpr
    ⟨by decide, by decide, by decide,
     ⟨[], 1, [("0xzzz", 1)], by decide, by decide, by decide⟩, by decide⟩

/-- Claim C9: the rolling 1-second rate bound is the code's stated intent
(`RATE_LIMIT = 5  # Etherscan rate limit`) but the implementation violates
it.  In the idealized timed model of `acquire` — the lock is held through
the sleep, so callers serialize, and each caller enters as the previous
one completes — 16 back-to-back calls on a fresh rate-5 limiter receive
10 grants inside the window `(0, 1]`: after the initial burst drains the
bucket, a sleeping call sets `last_update` to its *entry* time, so the
next caller counts the sleep interval again and sustained throughput
reaches 2N per second instead of N. -/
theorem C9_rate_limit_violated :
    ((grantsFrom (mkLimiter 5 0) 0 16).filter
      (fun g => decide (0 < g) && decide (g ≤ 1))).length = 10 ∧ 5 < 10 := by
  exact ⟨by with_unfolding_all rfl, by norm_num⟩

/-- The Binance 14 hot wallet (a `KNOWN_EXCHANGE_HOT_WALLETS` key). -/
def binance14 : String := "0x28c6c06298d514db089934071355e5743bf21d60"

/-- Concrete ledger for Claim C1: seed `0xaaa` has one inflow from `0xppp`
and one outflow to the Binance 14 hot wallet, so it classifies as a
deposit funnel; everything else is empty. -/
def c1Upstream : String → String → Option (List Tx) := fun a ty =>
  if a = "0xaaa" ∧ ty = "normal" then
    some [sampleTx "0xppp" "0xaaa" 1000000000000000000,
          sampleTx "0xaaa" binance14 1000000000000000000]
  else some []

/-- Claim C1 (counterexample): in `bfs_expand`, a node classified as an
exchange-deposit funnel does NOT terminate traversal on its branch.  Seed
`0xaaa` is classified (`is_exchange_deposit = true`, via the funnel
heuristic — it is not itself in the table), yet its peer `0xppp` is still
enqueued (at depth 1, with a traversal edge from `0xaaa`), contradicting
"none of its peers are enqueued". -/
theorem C1_counterexample :
    lookupD KNOWN_EXCHANGE_HOT_WALLETS "0xaaa" = none ∧
    (match lookupD (bfs_expand KNOWN_EXCHANGE_HOT_WALLETS c1Upstream ["0xaaa"] 2 "both"
        10).graph "0xaaa" with
      | some r => r.analysis.is_exchange_deposit
      | none => false) = true ∧
    ("0xppp", 1) ∈ (bfs_expand KNOWN_EXCHANGE_HOT_WALLETS c1Upstream ["0xaaa"] 2 "both"
      10).enqueueLog ∧
    ("0xaaa", 0, "0xppp") ∈ (bfs_expand KNOWN_EXCHANGE_HOT_WALLETS c1Upstream ["0xaaa"] 2
      "both" 10).edgeLog ∧
    (bfs_expand KNOWN_EXCHANGE_HOT_WALLETS c1Upstream ["0xaaa"] 2 "both" 10).queue = [] := by
  exact ⟨by decide, by decide, by decide, by decide, by decide⟩

/-- Claim C1 (amended): what does terminate traversal is table membership
of the *peer*: `bfs_expand` never enqueues a peer that is in the
known-endpoint table (it records a KYC touchpoint instead), so no
traversal edge ever points into a known endpoint; but a node classified
`DepositFunnel` still has its other peers enqueued. -/
theorem C1_table_peers_never_enqueued (table : List (String × String))
    (upstream : String → String → Option (List Tx)) (seeds : List String)
    (max_depth : Nat) (direction : String) (fuel : Nat) (u : String) (du : Nat)
    (v : String)
    (he : (u, du, v) ∈ (bfs_expand table upstream seeds max_depth direction
      fuel).edgeLog) :
    lookupD table v = none :=
  ((bfs_expand_inv table upstream seeds max_depth direction fuel).edge_inv u du v he).1

/-- Claim C1 witness: in the concrete run, the enqueued peer `0xppp` is
indeed outside the table. -/
theorem C1_witness : lookupD KNOWN_EXCHANGE_HOT_WALLETS "0xppp" = none :=
  C1_table_peers_never_enqueued KNOWN_EXCHANGE_HOT_WALLETS c1Upstream ["0xaaa"] 2 "both"
    10 "0xaaa" 0 "0xppp" (by decide)

/-- Concrete ledger for Claim C2 in which fetching the interior node
`0xbbb` raises (modelled as `none`). -/
def c2UpstreamFail : String → String → Option (List Tx) := fun a ty =>
  if a = "0xaaa" ∧ ty = "normal" then some [sampleTx "0xaaa" "0xbbb" 2000000000000000000]
  else if a = "0xbbb" then none
  else some []

/-- The same ledger with `0xbbb`'s fetch succeeding with an empty result. -/
def c2UpstreamEmpty : String → String → Option (List Tx) := fun a ty =>
  if a = "0xaaa" ∧ ty = "normal" then some [sampleTx "0xaaa" "0xbbb" 2000000000000000000]
  else if a = "0xbbb" then some []
  else some []

/-- Claim C2 (counterexample): no `fetch_failed` flag exists anywhere in
the traversal output.  A run in which the fetch of interior node `0xbbb`
raises is *identical in every field* to a run in which that fetch
succeeds with an empty history, so the returned graph cannot mark the
node `fetch_failed: true` as the claim states. -/
theorem C2_counterexample :
    bfs_expand KNOWN_EXCHANGE_HOT_WALLETS c2UpstreamFail ["0xaaa"] 2 "both" 10 =
      bfs_expand KNOWN_EXCHANGE_HOT_WALLETS c2UpstreamEmpty ["0xaaa"] 2 "both" 10 := by
  rfl

/-- Claim C2 (amended): a `FetchError` for one address is absorbed —
`etherscan_request` catches every exception and returns `[]` — so in any
completed run the failed node is still recorded in the graph, with
classification effectively Unknown (`is_exchange_deposit = false`,
no exchange name, zero transfers, no peers), traversal continues and the
full graph is returned; but the node carries no `fetch_failed` marker. -/
theorem C2_failed_fetch_still_recorded (table : List (String × String))
    (upstream : String → String → Option (List Tx)) (seeds : List String)
    (max_depth : Nat) (direction : String) (fuel : Nat) (a : String)
    (hq : (bfs_expand table upstream seeds max_depth direction fuel).queue = [])
    (ha : a ∈ (bfs_expand table upstream seeds max_depth direction fuel).visited)
    (hlow : pyLower a = a)
    (hn : upstream a "normal" = none) (he : upstream a "erc20" = none) :
    ∃ r, lookupD (bfs_expand table upstream seeds max_depth direction fuel).graph a =
        some r ∧
      r.analysis.is_exchange_deposit = false ∧ r.analysis.exchange_name = none ∧
      r.analysis.tx_count = 0 ∧ r.analysis.connected_in = [] ∧
      r.analysis.connected_out = [] := by
  have hInv := bfs_expand_inv table upstream seeds max_depth direction fuel
  rcases hInv.vis_gq a ha with hg | ⟨d, hd⟩
  · obtain ⟨r, hr⟩ := lookupD_isSome_of_mem_keys _ _ hg
    refine ⟨r, hr, ?_⟩
    have hrec := hInv.graph_rec a r hr
    have hana : analyze_address table upstream a =
        { address := a, is_exchange_deposit := false, exchange_name := none,
          tx_count := 0, eth_in := 0, eth_out := 0, usdt_in := 0, usdt_out := 0,
          connected_in := [], connected_out := [], first_tx := 0, last_tx := 0 } := by
      unfold analyze_address get_transactions etherscan_request
      rw [hlow]
      simp only [hlow, hn, he]
      simp [is_exchange_deposit_pattern, classify_nil, classificationPair, sumQ,
        minD, maxD]
    rw [hrec, hana]
    exact ⟨rfl, rfl, rfl, rfl, rfl⟩
  · rw [hq] at hd
    cases hd

/-- Claim C2 witness: in the concrete failing run, the failed interior
node `0xbbb` is recorded with an effectively-Unknown classification. -/
theorem C2_witness :
    ∃ r, lookupD (bfs_expand KNOWN_EXCHANGE_HOT_WALLETS c2UpstreamFail ["0xaaa"] 2 "both"
        10).graph "0xbbb" = some r ∧
      r.analysis.is_exchange_deposit = false ∧ r.analysis.exchange_name = none ∧
      r.analysis.tx_count = 0 ∧ r.analysis.connected_in = [] ∧
      r.analysis.connected_out = [] :=
  C2_failed_fetch_still_recorded KNOWN_EXCHANGE_HOT_WALLETS c2UpstreamFail ["0xaaa"] 2
    "both" 10 "0xbbb" (by decide) (by decide) (by decide) (by rfl) (by rfl)

/-- One Blockscout transfer of `weiVal` wei to `t`, used in concrete
`trace_hops` runs. -/
def sampleBsTx (t : String) (weiVal : Nat) : BsTxOut :=
  { value := weiVal, toHash := some t, hash := "h" ++ t, timestamp := "" }

/-- Concrete Blockscout ledger for Claim C3: the start address has one
qualifying outgoing transfer. -/
def c3Fetch : String → List BsTxOut := fun a =>
  if a = "0xstart" then [sampleBsTx "0xnext" 1000000000000000000] else []

/-- Claim C3 (counterexample): `trace_hops` of `multi_hop_tracer_v2` with
`depth = 0` does NOT return a single-node graph for the seed: the seed is
popped and immediately skipped by `current_depth >= depth` *before* being
analyzed or recorded, so the returned graph has no nodes and
`addresses_traced = 0`, contradicting "the seed is fetched, classified,
and recorded". -/
theorem C3_counterexample :
    (trace_hops [] c3Fetch "0xstart" 0 (1 / 10) 5).nodes = [] ∧
    (trace_hops [] c3Fetch "0xstart" 0 (1 / 10) 5).totals.addresses_traced = 0 ∧
    (trace_hops [] c3Fetch "0xstart" 0 (1 / 10) 5).queue = [] := by
  exact ⟨by with_unfolding_all rfl, by with_unfolding_all rfl, by with_unfolding_all rfl⟩

/-- Claim C3 (amended): `bfs_expand` with `max_depth = 0` and any seed list
is a valid invocation returning a single-node graph per (distinct,
lower-cased) seed: after `seeds.length` iterations the queue is drained,
no traversal edge was recorded, and the graph holds exactly the seeds,
each fetched, classified and recorded at depth 0.  The multi-hop tracers
(`trace_hops`) instead return an *empty* graph at depth 0 (see the
counterexample). -/
theorem C3_depth_zero_single_node_bfs (table : List (String × String))
    (upstream : String → String → Option (List Tx)) (seeds : List String)
    (direction : String) :
    (bfs_expand table upstream seeds 0 direction seeds.length).queue = [] ∧
    (bfs_expand table upstream seeds 0 direction seeds.length).edgeLog = [] ∧
    (∀ a, (∃ r, lookupD (bfs_expand table upstream seeds 0 direction
        seeds.length).graph a = some r) ↔ a ∈ seeds.map pyLower) ∧
    (∀ a r, lookupD (bfs_expand table upstream seeds 0 direction
        seeds.length).graph a = some r →
      r = ⟨0, analyze_address table upstream a⟩) := by
  obtain ⟨hInv, hdepths, hqlog, hkeys, hgraph, hedge⟩ := bfsInit_inv table upstream seeds
  have hz : ∀ e ∈ (bfsInit seeds).queue, e.2 = 0 := by
    intro e he
    exact hdepths e (by rw [hqlog]; exact he)
  have hlen : (bfsInit seeds).queue.length = seeds.length := by
    rw [← hqlog]
    have := congrArg List.length hkeys
    simpa using this
  obtain ⟨g1, g2, g3, g4, g5⟩ :=
    bfsLoop_drain table upstream direction seeds.length (bfsInit seeds) hz
  have hqmap : ((bfsInit seeds).queue.take seeds.length).map Prod.fst =
      seeds.map pyLower := by
    rw [← hlen, List.take_length, ← hqlog, hkeys]
  refine ⟨?_, ?_, ?_, ?_⟩
  · show (bfsLoop table upstream 0 direction seeds.length (bfsInit seeds)).queue = []
    rw [g4, ← hlen, List.drop_length]
  · show (bfsLoop table upstream 0 direction seeds.length (bfsInit seeds)).edgeLog = []
    rw [g3, hedge]
  · intro a
    show (∃ r, lookupD (bfsLoop table upstream 0 direction seeds.length
        (bfsInit seeds)).graph a = some r) ↔ a ∈ seeds.map pyLower
    rw [g5 a, hqmap, hgraph]
    by_cases hmem : a ∈ seeds.map pyLower
    · simp [hmem]
    · simp [hmem, lookupD_nil]
  · intro a r hr
    unfold bfs_expand at hr
    have := g5 a
    rw [hqmap, hgraph] at this
    rw [this] at hr
    by_cases hmem : a ∈ seeds.map pyLower
    · rw [if_pos hmem] at hr
      cases hr
      rfl
    · rw [if_neg hmem, lookupD_nil] at hr
      cases hr

/-- Concrete Blockscout ledger for Claim C5: `0xs` pays `0xa1` and `0xc`,
and `0xa1` pays `0xc` again, all above the traced minimum. -/
def c5Fetch : String → List BsTxOut := fun a =>
  if a = "0xs" then [sampleBsTx "0xa1" 1000000000000000000,
                     sampleBsTx "0xc" 1000000000000000000]
  else if a = "0xa1" then [sampleBsTx "0xc" 1000000000000000000]
  else []

/-- Claim C5 (counterexample): in `trace_hops` of `multi_hop_tracer_v2`
an address can appear *twice* as a queue entry: the visited set is updated
only when an entry is popped, so `0xc` — reachable from both `0xs` and
`0xa1` — is enqueued at depth 1 and again at depth 2 before its first pop,
contradicting "every address appears at most once as a queue entry
(deduplicated via the VisitedSet)". -/
theorem C5_counterexample :
    ((trace_hops [] c5Fetch "0xs" 3 (1 / 10) 10).enqueueLog.map Prod.fst).count "0xc" = 2 ∧
    (trace_hops [] c5Fetch "0xs" 3 (1 / 10) 10).queue = [] := by
  exact ⟨by with_unfolding_all rfl, by with_unfolding_all rfl⟩

/-- Claim C5 (amended): in `bfs_expand`, where addresses are marked
visited at *enqueue* time, every address appears at most once as a queue
entry provided the seed list is duplicate-free after lower-casing (the
seed loop itself performs no deduplication); and in every completed run
the number of recorded graph nodes equals the number of visited
addresses, so a peer shared by two seeds is recorded exactly once. -/
theorem C5_no_revisits_bfs (table : List (String × String))
    (upstream : String → String → Option (List Tx)) (seeds : List String)
    (max_depth : Nat) (direction : String) (fuel : Nat)
    (hnodup : (seeds.map pyLower).Nodup) :
    ((bfs_expand table upstream seeds max_depth direction fuel).enqueueLog.map
      Prod.fst).Nodup ∧
    ((bfs_expand table upstream seeds max_depth direction fuel).queue = [] →
      (bfs_expand table upstream seeds max_depth direction fuel).graph.length =
        (bfs_expand table upstream seeds max_depth direction fuel).visited.length) := by
  obtain ⟨hInv0, _, _, hkeys, _, _⟩ := bfsInit_inv table upstream seeds
  constructor
  · apply bfsLoop_logNodup fuel _ hInv0
    rw [hkeys]
    exact hnodup
  · intro hq
    have hInv := bfs_expand_inv table upstream seeds max_depth direction fuel
    have hiff : ∀ a,
        a ∈ (bfs_expand table upstream seeds max_depth direction fuel).graph.map
          Prod.fst ↔
        a ∈ (bfs_expand table upstream seeds max_depth direction fuel).visited := by
      intro a
      constructor
      · exact hInv.graph_vis a
      · intro ha
        rcases hInv.vis_gq a ha with hg | ⟨d, hd⟩
        · exact hg
        · rw [hq] at hd
          cases hd
    have hperm := (List.perm_ext_iff_of_nodup hInv.graph_nodup hInv.vis_nodup).mpr hiff
    calc (bfs_expand table upstream seeds max_depth direction fuel).graph.length
        = ((bfs_expand table upstream seeds max_depth direction fuel).graph.map
            Prod.fst).length := (List.length_map _ _).symm
      _ = (bfs_expand table upstream seeds max_depth direction fuel).visited.length :=
          hperm.length_eq

/-- Claim C5 witness: the amended property at the concrete Claim-C1
ledger: the enqueue log is duplicate-free and the completed run records
as many nodes as visited addresses. -/
theorem C5_witness :
    ((bfs_expand KNOWN_EXCHANGE_HOT_WALLETS c1Upstream ["0xaaa"] 2 "both"
      10).enqueueLog.map Prod.fst).Nodup ∧
    ((bfs_expand KNOWN_EXCHANGE_HOT_WALLETS c1Upstream ["0xaaa"] 2 "both" 10).queue = [] →
      (bfs_expand KNOWN_EXCHANGE_HOT_WALLETS c1Upstream ["0xaaa"] 2 "both"
        10).graph.length =
      (bfs_expand KNOWN_EXCHANGE_HOT_WALLETS c1Upstream ["0xaaa"] 2 "both"
        10).visited.length) :=
  C5_no_revisits_bfs KNOWN_EXCHANGE_HOT_WALLETS c1Upstream ["0xaaa"] 2 "both" 10
    (by decide)

/-- Concrete Blockscout ledger for Claim C8 (a diamond with unequal path
lengths): `0xs` pays `0xa1` and `0xc` directly, and `0xa1` pays `0xc`. -/
def c8Fetch : String → List BsTxOut := fun a =>
  if a = "0xs" then [sampleBsTx "0xa1" 1000000000000000000,
                     sampleBsTx "0xc" 1000000000000000000]
  else if a = "0xa1" then [sampleBsTx "0xc" 1000000000000000000]
  else []

/-- Claim C8 (counterexample): in `trace_hops` of `multi_hop_tracer_v2`
edges are recorded for every qualifying transfer regardless of the
destination's traversal status, so `depth(v) = depth(u) + 1` fails when
`v` was already discovered on a shorter path: the run records the edge
`0xa1 → 0xc` with `0xa1` processed at depth 1 while `0xc` is processed at
depth 1 as well (it was discovered directly from the seed), not at depth
2. -/
theorem C8_counterexample :
    (trace_hops [] c8Fetch "0xs" 3 (1 / 10) 10).edges.map
      (fun e => (e.fromAddr, e.toAddr)) =
      [("0xs", "0xa1"), ("0xs", "0xc"), ("0xa1", "0xc")] ∧
    (trace_hops [] c8Fetch "0xs" 3 (1 / 10) 10).procLog =
      [("0xs", 0), ("0xa1", 1), ("0xc", 1)] ∧
    (trace_hops [] c8Fetch "0xs" 3 (1 / 10) 10).queue = [] := by
  exact ⟨by with_unfolding_all rfl, by with_unfolding_all rfl, by with_unfolding_all rfl⟩

/-- Claim C8 (amended): depth monotonicity holds for *traversal* edges —
the enqueue events `bfs_expand` logs: in every completed run, each logged
edge `(u, du, v)` connects graph nodes recorded at depths `du` and
`du + 1` respectively.  (The v2 tracer additionally records transfer
edges into already-discovered or endpoint destinations, where the
relation fails; see the counterexample.) -/
theorem C8_traversal_edge_depths (table : List (String × String))
    (upstream : String → String → Option (List Tx)) (seeds : List String)
    (max_depth : Nat) (direction : String) (fuel : Nat) (u : String) (du : Nat)
    (v : String)
    (hq : (bfs_expand table upstream seeds max_depth direction fuel).queue = [])
    (he : (u, du, v) ∈ (bfs_expand table upstream seeds max_depth direction
      fuel).edgeLog) :
    ∃ ru rv,
      lookupD (bfs_expand table upstream seeds max_depth direction fuel).graph u =
        some ru ∧
      lookupD (bfs_expand table upstream seeds max_depth direction fuel).graph v =
        some rv ∧
      ru.depth = du ∧ rv.depth = du + 1 := by
  have hInv := bfs_expand_inv table upstream seeds max_depth direction fuel
  obtain ⟨-, hu, hv⟩ := hInv.edge_inv u du v he
  have hmemg : ∀ (a : String),
      a ∈ (bfs_expand table upstream seeds max_depth direction fuel).visited →
      a ∈ (bfs_expand table upstream seeds max_depth direction fuel).graph.map
        Prod.fst := by
    intro a ha
    rcases hInv.vis_gq a ha with hg | ⟨d, hd⟩
    · exact hg
    · rw [hq] at hd
      cases hd
  obtain ⟨ru, hru⟩ := lookupD_isSome_of_mem_keys _ _ (hmemg u (hInv.log_vis _ hu))
  obtain ⟨rv, hrv⟩ := lookupD_isSome_of_mem_keys _ _ (hmemg v (hInv.log_vis _ hv))
  refine ⟨ru, rv, hru, hrv, ?_, ?_⟩
  · exact hInv.log_depth u ru.depth du (hInv.graph_depth u ru hru) hu
  · exact hInv.log_depth v rv.depth (du + 1) (hInv.graph_depth v rv hrv) hv

/-- Claim C8 witness: the traversal edge of the concrete Claim-C1 run
(`0xaaa` at depth 0 discovering `0xppp`) connects nodes recorded at
depths 0 and 1. -/
theorem C8_witness :
    ∃ ru rv,
      lookupD (bfs_expand KNOWN_EXCHANGE_HOT_WALLETS c1Upstream ["0xaaa"] 2 "both"
        10).graph "0xaaa" = some ru ∧
      lookupD (bfs_expand KNOWN_EXCHANGE_HOT_WALLETS c1Upstream ["0xaaa"] 2 "both"
        10).graph "0xppp" = some rv ∧
      ru.depth = 0 ∧ rv.depth = 0 + 1 :=
  C8_traversal_edge_depths KNOWN_EXCHANGE_HOT_WALLETS c1Upstream ["0xaaa"] 2 "both" 10
    "0xaaa" 0 "0xppp" (by decide) (by decide)

/-- Claim C7 (counterexample): at the boundary `|balanceDelta| =
threshold` the daemon emits NO alert: the source tests
`abs(balance_change) > MIN_BALANCE_CHANGE` strictly, so a prior balance 0
and a new balance of exactly 0.01 ETH (with an unchanged transaction
count) produce an empty alert list, although the claim's condition
`|balanceDelta| ≥ threshold` holds. -/
theorem C7_counterexample :
    (check_addresses [("0xw", ⟨"W", "t", "high"⟩)] [("0xw", ⟨0, 0, "t0", "W"⟩)]
      (get_balances ["0xw"] [some 10000000000000000])
      (get_tx_counts ["0xw"] [some 0]) "t1" 7).2 = [] ∧
    balanceAt (get_balances ["0xw"] [some 10000000000000000]) "0xw" -
      prevBalanceAt [("0xw", ⟨0, 0, "t0", "W"⟩)] "0xw" = MIN_BALANCE_CHANGE := by
  exact ⟨by with_unfolding_all rfl, by with_unfolding_all rfl⟩

/-- Claim C7 (amended): for every cycle and every watchlist address (no
two colliding after lower-casing), an alert is emitted exactly when
`|balanceDelta| > threshold` — strictly — or `txDelta > 0`; it is then
unique for that address, carries the rounded delta and new-transaction
count, and its severity escalates from `medium` to `high` exactly past
the larger secondary thresholds (`|balanceDelta| > 10` or `txDelta > 5`). -/
theorem C7_alert_strict_threshold (watchlist : List (String × WatchInfo))
    (prev : List (String × StateRec)) (balances : List (String × ℚ))
    (tx_counts : List (String × Nat)) (now : String) (block : Nat)
    (hnodup : (watchlist.map (fun e => pyLower e.1)).Nodup)
    (entry : String × WatchInfo) (hmem : entry ∈ watchlist) :
    ((check_addresses watchlist prev balances tx_counts now block).2.filter
      (fun al => decide (al.address = pyLower entry.1))) =
      (if |balanceAt balances (pyLower entry.1) - prevBalanceAt prev (pyLower entry.1)| >
            MIN_BALANCE_CHANGE ∨
          (txCountAt tx_counts (pyLower entry.1) : Int) -
            (prevTxAt prev (pyLower entry.1) : Int) > 0 then
        [{ timestamp := now, block := block, address := pyLower entry.1,
           label := entry.2.label,
           balance_change_eth := pyRound6 (balanceAt balances (pyLower entry.1) -
             prevBalanceAt prev (pyLower entry.1)),
           new_transactions := (txCountAt tx_counts (pyLower entry.1) : Int) -
             (prevTxAt prev (pyLower entry.1) : Int),
           current_balance := pyRound6 (balanceAt balances (pyLower entry.1)),
           severity :=
             if |balanceAt balances (pyLower entry.1) -
                  prevBalanceAt prev (pyLower entry.1)| > 10 ∨
                (txCountAt tx_counts (pyLower entry.1) : Int) -
                  (prevTxAt prev (pyLower entry.1) : Int) > 5 then "high"
             else "medium" }]
      else []) := by
  rw [alerts_for_entry watchlist prev balances tx_counts now block hnodup entry hmem]
  simp only [alertOf]
  split
  · rfl
  · rfl

/-- Scenario E inputs: one watched address with prior balance 10.0 and
prior transaction count 7; the cycle observes balance 10.02 ETH and the
same transaction count. -/
def scenarioEWatchlist : List (String × WatchInfo) := [("0xw", ⟨"W", "t", "high"⟩)]

def scenarioEPrev : List (String × StateRec) := [("0xw", ⟨10, 7, "t0", "W"⟩)]

def scenarioEBalances : List (String × ℚ) :=
  get_balances ["0xw"] [some 10020000000000000000]

def scenarioETxCounts : List (String × Nat) := get_tx_counts ["0xw"] [some 7]

/-- Claim C7 witness (Scenario E): prior balance 10.0, new balance 10.02,
threshold 0.01 → exactly one alert, `balance_change_eth = 0.02` (`1/50`),
severity `medium`. -/
theorem C7_witness :
    ((check_addresses scenarioEWatchlist scenarioEPrev scenarioEBalances
      scenarioETxCounts "t1" 9).2.filter
      (fun al => decide (al.address = pyLower "0xw"))) =
      [{ timestamp := "t1", block := 9, address := "0xw", label := "W",
         balance_change_eth := 1 / 50, new_transactions := 0,
         current_balance := 501 / 50, severity := "medium" }] := by
  rw [C7_alert_strict_threshold scenarioEWatchlist scenarioEPrev scenarioEBalances
    scenarioETxCounts "t1" 9 (by decide) ("0xw", ⟨"W", "t", "high"⟩) (by decide)]
  with_unfolding_all rfl

/-- Claim C10: a watchlist address with no entry in the persisted
prior-state map is diffed against a zero baseline (prior balance 0, prior
transaction count 0): on its first observed cycle it alerts exactly when
its current balance exceeds the minimum-balance-change threshold (in
absolute value, strictly) or its transaction count is positive, and the
alert's `balance_change_eth` equals its full current balance (both
rounded to 6 decimals, as recorded in `current_balance`). -/
theorem C10_missing_prior_zero_baseline (watchlist : List (String × WatchInfo))
    (prev : List (String × StateRec)) (balances : List (String × ℚ))
    (tx_counts : List (String × Nat)) (now : String) (block : Nat)
    (hnodup : (watchlist.map (fun e => pyLower e.1)).Nodup)
    (entry : String × WatchInfo) (hmem : entry ∈ watchlist)
    (hprev : lookupD prev (pyLower entry.1) = none) :
    ((check_addresses watchlist prev balances tx_counts now block).2.filter
      (fun al => decide (al.address = pyLower entry.1))) =
      (if |balanceAt balances (pyLower entry.1)| > MIN_BALANCE_CHANGE ∨
          (txCountAt tx_counts (pyLower entry.1) : Int) > 0 then
        [{ timestamp := now, block := block, address := pyLower entry.1,
           label := entry.2.label,
           balance_change_eth := pyRound6 (balanceAt balances (pyLower entry.1)),
           new_transactions := (txCountAt tx_counts (pyLower entry.1) : Int),
           current_balance := pyRound6 (balanceAt balances (pyLower entry.1)),
           severity :=
             if |balanceAt balances (pyLower entry.1)| > 10 ∨
                (txCountAt tx_counts (pyLower entry.1) : Int) > 5 then "high"
             else "medium" }]
      else []) := by
  rw [alerts_for_entry watchlist prev balances tx_counts now block hnodup entry hmem]
  simp only [alertOf, prevBalanceAt, prevTxAt, hprev, Int.ofNat_zero, sub_zero,
    Int.natCast_zero]
  split
  · rfl
  · rfl

/-- Claim C10 witness: an address absent from the prior state, observed
with balance 5 ETH and 3 transactions, alerts with
`balance_change_eth = 5` — its full current balance. -/
theorem C10_witness :
    ((check_addresses [("0xw", ⟨"W", "t", "high"⟩)] []
      (get_balances ["0xw"] [some 5000000000000000000])
      (get_tx_counts ["0xw"] [some 3]) "t1" 4).2.filter
      (fun al => decide (al.address = pyLower "0xw"))) =
      [{ timestamp := "t1", block := 4, address := "0xw", label := "W",
         balance_change_eth := 5, new_transactions := 3,
         current_balance := 5, severity := "medium" }] := by
  rw [C10_missing_prior_zero_baseline [("0xw", ⟨"W", "t", "high"⟩)] []
    (get_balances ["0xw"] [some 5000000000000000000])
    (get_tx_counts ["0xw"] [some 3]) "t1" 4 (by decide)
    ("0xw", ⟨"W", "t", "high"⟩) (by decide) (by rfl)]
  with_unfolding_all rfl
